import Mathlib

/-!
# simple-deflicker16: the histogram-matching engine

A shallow embedding of `histogram.go` and of the target-averaging step of
`runDeflickering` in `main.go`.

Conventions of the embedding.

* A Go array `[histSize]T` is modelled by its indexing function `Nat → Nat`;
  only the indices below `histSize` are meaningful.
* `uint32` arithmetic is arithmetic on `Nat` reduced modulo `2^32`; `int`
  arithmetic is arithmetic on `Int` wrapped to 64-bit two's complement.
* `float64` arithmetic is IEEE-754 binary64 with round-to-nearest-even, modelled
  exactly over the rationals.  The two points that the Go language leaves to the
  implementation (fusing `x*y + z` into one rounding, and the result of
  converting an unrepresentable float to an integer) are parameters of the
  model, collected in `FloatEnv`.
* A run-time panic (index out of range, integer division by zero) is `none`.
-/

namespace Deflicker

/-! ## Data model (`histogram.go`, lines 8-21) -/

/-- The constant `histSize = 65536`: the number of buckets per channel. -/
abbrev histSize : Nat := 65536

/-- The modulus of `uint32` arithmetic, `2^32`. -/
abbrev u32 : Nat := 4294967296

/-- The type `histogram [histSize]uint32`, as an indexing function. -/
abbrev histogram := Nat → Nat

/-- The type `lut [histSize]uint16`, as an indexing function. -/
abbrev lut := Nat → Nat

/-- The struct `rgbHistogram`. -/
structure rgbHistogram where
  r : histogram
  g : histogram
  b : histogram

/-- The struct `rgbLut`. -/
structure rgbLut where
  r : lut
  g : lut
  b : lut

/-- A zero-initialised array (`var h histogram`). -/
def zeroHistogram : histogram := fun _ => 0

/-- A zero-initialised `rgbHistogram` (`var h rgbHistogram`). -/
def zeroRgbHistogram : rgbHistogram := ⟨zeroHistogram, zeroHistogram, zeroHistogram⟩

/-- The sum of all `histSize` buckets of one channel, as a mathematical integer. -/
def histogram.total (h : histogram) : Nat := ∑ i in Finset.range histSize, h i

/-! ## IEEE-754 binary64 arithmetic on non-negative operands

Every `float64` of `generateRgbLutFromRgbHistograms` is computed from conversions
of `uint32` values and the constant `0.5`, so no negative value, negative zero or
negative infinity arises and the model has none. -/

/-- A `float64` value: a finite rational, `+Inf`, or `NaN`. -/
inductive F64 where
  | fin (q : ℚ)
  | inf
  | nan
  deriving DecidableEq

/-- Round a rational to the nearest integer, ties to the even one. -/
def roundNearestEven (q : ℚ) : ℤ :=
  let f := ⌊q⌋
  if q - f < 1 / 2 then f
  else if 1 / 2 < q - f then f + 1
  else if f % 2 = 0 then f else f + 1

/-- The exponent of the unit in the last place of the binary64 format at `q`:
53 significant bits, bounded below by the subnormal exponent `-1074`. -/
def ulpExponent (q : ℚ) : ℤ := max (Int.log 2 q - 52) (-1074)

/-- Rounding of an exact non-negative result to binary64 (round to nearest,
ties to even; overflow gives `+Inf`). -/
def F64.round (q : ℚ) : F64 :=
  if q = 0 then .fin 0
  else
    let e := ulpExponent q
    let v : ℚ := (roundNearestEven (q / 2 ^ e) : ℚ) * 2 ^ e
    if (2 : ℚ) ^ (1024 : ℕ) ≤ v then .inf else .fin v

/-- The conversion `float64(x)` of a `uint32`: exact, since `x < 2^32`. -/
def F64.ofUint32 (x : Nat) : F64 := .fin x

/-- The quotient `x / y` of `float64` values. -/
def F64.div : F64 → F64 → F64
  | .fin a, .fin b => if b = 0 then (if a = 0 then .nan else .inf) else F64.round (a / b)
  | .fin _, .inf => .fin 0
  | .inf, .fin _ => .inf
  | _, _ => .nan

/-- The product `x * y` of `float64` values. -/
def F64.mul : F64 → F64 → F64
  | .fin a, .fin b => F64.round (a * b)
  | .fin a, .inf => if a = 0 then .nan else .inf
  | .inf, .fin b => if b = 0 then .nan else .inf
  | .inf, .inf => .inf
  | _, _ => .nan

/-- The sum `x + y` of `float64` values. -/
def F64.add : F64 → F64 → F64
  | .fin a, .fin b => F64.round (a + b)
  | .nan, _ => .nan
  | _, .nan => .nan
  | _, _ => .inf

/-- The fused multiply-add `x*y + z`, rounded once. -/
def F64.fma (x y z : F64) : F64 :=
  match x, y, z with
  | .fin a, .fin b, .fin c => F64.round (a * b + c)
  | _, _, _ => F64.add (F64.mul x y) z

/-- What the Go specification leaves to the implementation in
`uint32(0.5 + float64(t)*k)`: whether the product and the sum are fused into one
rounding, and the result of converting a value that `uint32` cannot represent
(`NaN`, `+Inf`, or a finite value of at least `2^32`). -/
structure FloatEnv where
  fused : Bool
  unrepresentable : F64 → Nat

/-- The conversion `uint32(x)` of a `float64`: truncation when the value is
representable, the implementation's choice otherwise. -/
def F64.toUint32 (env : FloatEnv) : F64 → Nat
  | .fin q => if q < 4294967296 then ⌊q⌋.toNat else env.unrepresentable (.fin q) % u32
  | x => env.unrepresentable x % u32

/-- The expression `uint32(0.5 + float64(t)*k)` of the rescaling loop
(`histogram.go`, lines 60-62). -/
def rescale (env : FloatEnv) (k : F64) (t : Nat) : Nat :=
  F64.toUint32 env
    (if env.fused then F64.fma (F64.ofUint32 t) k (.fin (1 / 2))
     else F64.add (.fin (1 / 2)) (F64.mul (F64.ofUint32 t) k))

/-- The finite value that `F64.round` gives when it does not overflow: the
nearest multiple of the unit in the last place. -/
def roundedValue (q : ℚ) : ℚ :=
  if q = 0 then 0 else (roundNearestEven (q / 2 ^ ulpExponent q) : ℚ) * 2 ^ ulpExponent q

/-- The finite value of `0.5 + float64(t)*k` for a finite scale factor `k`, when
no intermediate result overflows: rounded once when the product and the sum are
fused, twice otherwise. -/
def rescaledValue (fused : Bool) (k : ℚ) (t : Nat) : ℚ :=
  if fused then roundedValue ((t : ℚ) * k + 1 / 2)
  else roundedValue (1 / 2 + roundedValue ((t : ℚ) * k))

/-! ## `convertToCumulativeRgbHistogram` (`histogram.go`, lines 38-49) -/

/-- One channel of `convertToCumulativeRgbHistogram`: `out[0] = input[0]` and
`out[i] = out[i-1] + input[i]` in `uint32` arithmetic. -/
def convertToCumulativeHistogram (input : histogram) : histogram
  | 0 => input 0
  | i + 1 => (convertToCumulativeHistogram input i + input (i + 1)) % u32

/-- The function `convertToCumulativeRgbHistogram`: the three channels are
accumulated side by side, each from its own array. -/
def convertToCumulativeRgbHistogram (input : rgbHistogram) : rgbHistogram :=
  ⟨convertToCumulativeHistogram input.r,
   convertToCumulativeHistogram input.g,
   convertToCumulativeHistogram input.b⟩

/-! ## `generateRgbLutFromRgbHistograms` (`histogram.go`, lines 51-84) -/

/-- The inner loop `for p < histSize-1 && tgt[p] < c { p++ }`, started at `p`;
the result is the cursor when the loop exits. -/
def advanceCursor (tgt : histogram) (c : Nat) (p : Nat) : Nat :=
  if p < histSize - 1 ∧ tgt p < c then advanceCursor tgt c (p + 1) else p
termination_by histSize - 1 - p
decreasing_by omega

/-- The state `(p, lut)` of one channel of the loop `for i := 0; i < histSize; i++`
after its first `n` iterations: iteration `i` advances the shared cursor against
`src[i]` and stores it in `lut[i]`. -/
def lutLoop (tgt src : histogram) : Nat → Nat × lut
  | 0 => (0, fun _ => 0)
  | n + 1 =>
    let s := lutLoop tgt src n
    let p := advanceCursor tgt (src n) s.1
    (p, Function.update s.2 n p)

/-- The rescaled target cumulative histogram of one channel
(`histogram.go`, lines 52-63): the scale factor is the quotient of the last
buckets of the two cumulative histograms. -/
def rescaledTarget (env : FloatEnv) (current target : histogram) : histogram :=
  let cur := convertToCumulativeHistogram current
  let tgt := convertToCumulativeHistogram target
  let k := F64.div (F64.ofUint32 (cur (histSize - 1))) (F64.ofUint32 (tgt (histSize - 1)))
  fun i => rescale env k (tgt i)

/-- One channel of `generateRgbLutFromRgbHistograms`. -/
def generateLutFromHistograms (env : FloatEnv) (current target : histogram) : lut :=
  (lutLoop (rescaledTarget env current target) (convertToCumulativeHistogram current) histSize).2

/-- The function `generateRgbLutFromRgbHistograms`: the three channels run in
lockstep, each with its own scale factor, cursor and arrays. -/
def generateRgbLutFromRgbHistograms (env : FloatEnv) (current target : rgbHistogram) : rgbLut :=
  ⟨generateLutFromHistograms env current.r target.r,
   generateLutFromHistograms env current.g target.g,
   generateLutFromHistograms env current.b target.b⟩

/-- A histogram with `n` counts at intensity `a` and none elsewhere. -/
def spike (n a : Nat) : histogram := fun i => if i = a then n else 0

/-- The spike histogram in all three channels. -/
def rgbSpike (n a : Nat) : rgbHistogram := ⟨spike n a, spike n a, spike n a⟩

/-- The amd64 behaviour: no fusing; the conversion goes through a signed 64-bit
integer (instruction `CVTTSD2SQ`) of which the low 32 bits are kept. A finite
value below `2^63` converts to its truncation modulo `2^32`; `NaN`, `+Inf` and the
finite values from `2^63` on convert to the low bits of `-2^63`, which are `0`. -/
def amd64 : FloatEnv :=
  ⟨false, fun x =>
    match x with
    | .fin q => if q < 9223372036854775808 then ⌊q⌋.toNat % 4294967296 else 0
    | _ => 0⟩

/-- The smallest target intensity `p` in `[0, 65535]` with `c ≤ tgt[p]`, and
`65535` when there is none: the "ceiling match" of the specification, written
from its words. -/
def ceilingMatch (tgt : histogram) (c : Nat) : Nat :=
  if h : ∃ p, p < histSize ∧ c ≤ tgt p then Nat.find h else histSize - 1

/-! ## Images (`image.Image`, `color.Color`) -/

/-- The result of `color.Color.RGBA()`: alpha-premultiplied components, each
within `[0, 0xffff]` by the contract of the interface. -/
structure RGBA where
  r : Fin histSize
  g : Fin histSize
  b : Fin histSize
  a : Fin histSize

/-- The struct `image.Point`. -/
structure Point where
  X : Int
  Y : Int

/-- The struct `image.Rectangle`. -/
structure Rectangle where
  Min : Point
  Max : Point

/-- An `image.Image`: its `Bounds()` and the `RGBA()` of its `At(x, y)`. -/
structure Image where
  Bounds : Rectangle
  At : Int → Int → RGBA

/-- The values taken by the loop variable of `for v := lo; v < hi; v++`. -/
def loopRange (lo hi : Int) : List Int :=
  (List.range (hi - lo).toNat).map (fun (k : Nat) => lo + (k : Int))

/-- The brightness of a pixel, `(r+g+b)/3`, as the tests define it. -/
def brightness (c : RGBA) : Nat := (c.r.val + c.g.val + c.b.val) / 3

/-- The pixels of an image in scan order, row by row. -/
def Image.pixels (img : Image) : List RGBA :=
  (loopRange img.Bounds.Min.Y img.Bounds.Max.Y).flatMap fun y =>
    (loopRange img.Bounds.Min.X img.Bounds.Max.X).map fun x => img.At x y

/-- A `width`-by-`1` image at the origin showing the listed colours, as built by
the test helper `createSampleImage`; positions outside show `pad`. -/
def createSampleImage (pixels : List RGBA) (pad : RGBA) : Image :=
  ⟨⟨⟨0, 0⟩, ⟨pixels.length, 1⟩⟩, fun x _ => pixels.getD x.toNat pad⟩

/-- A grey opaque colour of the given 16-bit level. -/
def gray (v : Fin histSize) : RGBA := ⟨v, v, v, 65535⟩

/-! ## `generateRgbHistogramFromImage` (`histogram.go`, lines 23-36) -/

/-- The statement `h[v]++` on a `uint32` bucket. -/
def increment (h : histogram) (v : Nat) : histogram :=
  Function.update h v ((h v + 1) % u32)

/-- The loop body, lines 28-32: the three tallies of one pixel. -/
def countPixel (h : rgbHistogram) (c : RGBA) : rgbHistogram :=
  ⟨increment h.r c.r, increment h.g c.g, increment h.b c.b⟩

/-- The function `generateRgbHistogramFromImage`: the loop over `y` around the
loop over `x`, starting from the zero histogram. -/
def generateRgbHistogramFromImage (input : Image) : rgbHistogram :=
  (loopRange input.Bounds.Min.Y input.Bounds.Max.Y).foldl
    (fun h y =>
      (loopRange input.Bounds.Min.X input.Bounds.Max.X).foldl
        (fun h x => countPixel h (input.At x y)) h)
    zeroRgbHistogram

/-! ## `runDeflickering` (`main.go`, lines 32-144; `config.go`, lines 9-18) -/

/-- The struct `configuration`. -/
structure configuration where
  sourceDirectory : String
  destinationDirectory : String
  rollingAverage : Int
  jpegCompression : Int
  threads : Int
  MinBrightness : Nat

/-- The struct `picture`. -/
structure picture where
  currentPath : String
  targetPath : String
  currentRgbHistogram : rgbHistogram
  targetRgbHistogram : rgbHistogram

/-- The transform of the analyze pass (`main.go`, lines 50-57). `imagingOpen`
stands for the external decoder `imaging.Open`; `config` is the global
configuration, which is in scope of the closure. -/
def analyzePicture (_config : configuration) (imagingOpen : String → Except String Image)
    (pic : picture) : Except String picture :=
  match imagingOpen pic.currentPath with
  | .error err => .error (pic.currentPath ++ " | " ++ err)
  | .ok img => .ok { pic with currentRgbHistogram := generateRgbHistogramFromImage img }

/-- Go `int` arithmetic: the result wrapped to 64-bit two's complement. -/
def wrapInt (z : Int) : Int := (z + 9223372036854775808) % 18446744073709551616 - 9223372036854775808

/-- The loop `for j := 0; j < histLen; j++ { acc[j] += h[j] }` on one channel. -/
def addHistogram (acc h : histogram) : histogram := fun j => (acc j + h j) % u32

/-- The accumulation loop over the buckets, lines 69-73 and 99-103. -/
def addRgbHistogram (acc h : rgbHistogram) : rgbHistogram :=
  ⟨addHistogram acc.r h.r, addHistogram acc.g h.g, addHistogram acc.b h.b⟩

/-- The division loop over the buckets, lines 77-79 and 107-109, by a non-zero
`uint32` divisor. -/
def divRgbHistogram (h : rgbHistogram) (d : Nat) : rgbHistogram :=
  ⟨fun j => h.r j / d, fun j => h.g j / d, fun j => h.b j / d⟩

/-- The average of global mode (`main.go`, lines 65-81); `none` is the panic of
an integer division by zero. -/
def globalAverage (pictures : List picture) : Option rgbHistogram :=
  let sum := pictures.foldl (fun acc pic => addRgbHistogram acc pic.currentRgbHistogram)
    zeroRgbHistogram
  if 0 < pictures.length then
    let d := pictures.length % u32
    if d = 0 then none else some (divRgbHistogram sum d)
  else some sum

/-- The first index of the window of position `i` (`main.go`, lines 88-91):
`start = i - rollingAverage`, raised to `0` when negative. -/
def windowStart (rollingAverage : Int) (i : Nat) : Int :=
  let start := wrapInt (i - rollingAverage)
  if start < 0 then 0 else start

/-- The last index of the window of position `i` in a sequence of `len` pictures
(`main.go`, lines 92-95): `end = i + rollingAverage`, lowered to `len - 1` when
greater. -/
def windowEnd (rollingAverage : Int) (len : Nat) (i : Nat) : Int :=
  let end0 := wrapInt (i + rollingAverage)
  if end0 > (len : Int) - 1 then (len : Int) - 1 else end0

/-- The number of pictures averaged at position `i`, `end - start + 1`, as the
`int` the guard of line 105 tests. -/
def windowCount (rollingAverage : Int) (len : Nat) (i : Nat) : Int :=
  wrapInt (windowEnd rollingAverage len i - windowStart rollingAverage i + 1)

/-- The average of rolling mode for the picture at position `i`
(`main.go`, lines 87-111); `none` is a panic (index out of range or integer
division by zero). -/
def rollingAverageAt (rollingAverage : Int) (pictures : List picture) (i : Nat) :
    Option rgbHistogram :=
  let sum := (loopRange (windowStart rollingAverage i)
      (windowEnd rollingAverage pictures.length i + 1)).foldlM
    (fun acc idx =>
      if idx < 0 then none
      else pictures[idx.toNat]?.map fun pic => addRgbHistogram acc pic.currentRgbHistogram)
    zeroRgbHistogram
  if 0 < windowCount rollingAverage pictures.length i then
    let d := (windowCount rollingAverage pictures.length i).toNat % u32
    if d = 0 then none else sum.map fun s => divRgbHistogram s d
  else sum

/-- The target-averaging step of `runDeflickering` (`main.go`, lines 63-114):
global mode when `config.rollingAverage < 1`, rolling mode otherwise. -/
def averageTargets (config : configuration) (pictures : List picture) : Option (List picture) :=
  if config.rollingAverage < 1 then
    (globalAverage pictures).map fun avg =>
      pictures.map fun pic => { pic with targetRgbHistogram := avg }
  else
    pictures.enum.mapM fun ip =>
      (rollingAverageAt config.rollingAverage pictures ip.1).map fun avg =>
        { ip.2 with targetRgbHistogram := avg }

/-- The current histogram of the picture at position `k` of the sequence (the
zero histogram when there is no such picture). -/
def currentAt (pictures : List picture) (k : Nat) : rgbHistogram :=
  match pictures[k]? with
  | some pic => pic.currentRgbHistogram
  | none => zeroRgbHistogram

/-- A source histogram whose cumulative sum overflows `uint32` at bucket 1:
`2^32 - 1` counts at intensity 0 and one count at intensity 1. -/
def overflowing : histogram := fun i => if i = 0 then 4294967295 else if i = 1 then 1 else 0

/-- The image of `TestGenerateRgbHistogramFromImage_BrightnessCutoff`: four
opaque grey pixels of levels 0, `30*257`, `100*257` and `200*257`. -/
def testImage : Image :=
  createSampleImage [gray 0, gray 7710, gray 25700, gray 51400] (gray 0)

/-- A configuration with the brightness cutoff of the first test case,
`50*257 = 12850`. -/
def testConfig : configuration := ⟨"in", "out", 15, 95, 4, 12850⟩

/-- A picture record as `readDirectory` creates it: paths set, histograms zero. -/
def testPicture : picture := ⟨"in/a.png", "out/a.png", zeroRgbHistogram, zeroRgbHistogram⟩

/-- A 65536-by-65536 image that is black everywhere: `2^32` pixels. -/
def blackSquare : Image := ⟨⟨⟨0, 0⟩, ⟨65536, 65536⟩⟩, fun _ _ => gray 0⟩

/-- The width `Max.X - Min.X` of an image (0 when the bounds are empty). -/
def Image.width (img : Image) : Nat := (img.Bounds.Max.X - img.Bounds.Min.X).toNat

/-- The height `Max.Y - Min.Y` of an image (0 when the bounds are empty). -/
def Image.height (img : Image) : Nat := (img.Bounds.Max.Y - img.Bounds.Min.Y).toNat

/-- The statement of "cumulative form" in the specification, for one channel:
`C` is non-decreasing over the buckets, `C[i] = h[0] + ... + h[i]`, and the last
bucket of `C` is the channel total of `h`. -/
def IsRunningSum (h C : histogram) : Prop :=
  (∀ i, i < 65535 → C i ≤ C (i + 1)) ∧
  (∀ i, i ≤ 65535 → C i = ∑ k in Finset.range (i + 1), h k) ∧
  C 65535 = h.total

/-- A configuration in global mode (`rollingAverage = 0`). -/
def globalConfig : configuration := ⟨"in", "out", 0, 95, 4, 0⟩

/-- A configuration whose window is the largest `int`, `2^63 - 1`; it passes
`validateConfigInformation`, which only rejects negative windows. -/
def hugeWindowConfig : configuration := ⟨"in", "out", 9223372036854775807, 95, 4, 0⟩

/-- A configuration in rolling mode with window 1. -/
def rollingConfig : configuration := ⟨"in", "out", 1, 95, 4, 0⟩

/-- An analyzed picture whose pixels, `n` of them, are all black. -/
def blackPicture (n : Nat) : picture := ⟨"in/a.png", "out/a.png", rgbSpike n 0, zeroRgbHistogram⟩

/-- A channel of an `rgbHistogram`: a field selector through which the
accumulation and division loops act bucket by bucket. -/
def IsChannel (sel : rgbHistogram → histogram) : Prop :=
  (∀ a b j, sel (addRgbHistogram a b) j = (sel a j + sel b j) % u32) ∧
  (∀ h d j, sel (divRgbHistogram h d) j = sel h j / d) ∧
  (∀ j, sel zeroRgbHistogram j = 0)

/-! ## `applyRgbLutToImage` (`histogram.go`, lines 86-111) -/

/-- The struct `color.NRGBA64` of the Go standard library: non-alpha-premultiplied
components, each a `uint16`. -/
structure colorNRGBA64 where
  R : Nat
  G : Nat
  B : Nat
  A : Nat

/-- The method `color.NRGBA64.RGBA` of the Go standard library: each colour
component is multiplied by alpha and divided by `0xffff`, in `uint32`. -/
def colorNRGBA64.RGBA (c : colorNRGBA64) : Nat × Nat × Nat × Nat :=
  (c.R * c.A % u32 / 65535, c.G * c.A % u32 / 65535, c.B * c.A % u32 / 65535, c.A)

/-- The struct `image.NRGBA64` of the Go standard library: its bounds and its
pixel store, indexed by position. -/
structure imageNRGBA64 where
  Rect : Rectangle
  Pix : Int → Int → colorNRGBA64

/-- The test `Point{x, y}.In(r)`. -/
def Rectangle.contains (r : Rectangle) (x y : Int) : Prop :=
  r.Min.X ≤ x ∧ x < r.Max.X ∧ r.Min.Y ≤ y ∧ y < r.Max.Y

instance (r : Rectangle) (x y : Int) : Decidable (r.contains x y) := by
  unfold Rectangle.contains
  exact inferInstance

/-- The width `r.Dx()` of a rectangle, an `int`. -/
def Rectangle.Dx (r : Rectangle) : Int := wrapInt (r.Max.X - r.Min.X)

/-- The height `r.Dy()` of a rectangle, an `int`. -/
def Rectangle.Dy (r : Rectangle) : Int := wrapInt (r.Max.Y - r.Min.Y)

/-- The helper `mul3NonNeg` of package `image`: the product `x*y*z` when no
factor is negative and neither the products in `uint64` nor the result in `int`
overflow, and `-1` otherwise. -/
def mul3NonNeg (x y z : Int) : Int :=
  if x < 0 ∨ y < 0 ∨ z < 0 then -1
  else if 18446744073709551616 ≤ x * y then -1
  else if 18446744073709551616 ≤ x * y * z then -1
  else if 9223372036854775808 ≤ x * y * z then -1
  else x * y * z

/-- The helper `pixelBufferLength` of package `image` for the 8 bytes per pixel
of `NRGBA64`: the length of the pixel buffer; `none` is its panic on huge or
negative dimensions. -/
def pixelBufferLength (r : Rectangle) : Option Int :=
  if mul3NonNeg 8 r.Dx r.Dy < 0 then none else some (mul3NonNeg 8 r.Dx r.Dy)

/-- The function `image.NewNRGBA64` on bounds for which `pixelBufferLength` does
not panic: an all-zero image with the given bounds. The panic of the library
function on other bounds is not part of this definition; it is the `none` of
`pixelBufferLength`. -/
def NewNRGBA64 (r : Rectangle) : imageNRGBA64 := ⟨r, fun _ _ => ⟨0, 0, 0, 0⟩⟩

/-- The method `(*image.NRGBA64).SetNRGBA64`: stores the colour at a position
inside the bounds, does nothing outside. -/
def imageNRGBA64.SetNRGBA64 (p : imageNRGBA64) (x y : Int) (c : colorNRGBA64) : imageNRGBA64 :=
  if p.Rect.contains x y then
    ⟨p.Rect, fun x' y' => if x' = x ∧ y' = y then c else p.Pix x' y'⟩
  else p

/-- The method `(*image.NRGBA64).NRGBA64At`: the stored colour inside the
bounds, the zero colour outside. -/
def imageNRGBA64.NRGBA64At (p : imageNRGBA64) (x y : Int) : colorNRGBA64 :=
  if p.Rect.contains x y then p.Pix x y else ⟨0, 0, 0, 0⟩

/-- The loop body of `applyRgbLutToImage`, lines 100-107: the pixel written at
`(x, y)`. The conversion `uint16(a)` is the remainder modulo `2^16`. -/
def mappedPixel (input : Image) (lut : rgbLut) (x y : Int) : colorNRGBA64 :=
  ⟨lut.r (input.At x y).r, lut.g (input.At x y).g, lut.b (input.At x y).b,
   (input.At x y).a.val % 65536⟩

/-- The function `applyRgbLutToImage`: a fresh `NRGBA64` image with the bounds
of the input, filled by the loop over `y` around the loop over `x`. -/
def applyRgbLutToImage (input : Image) (lut : rgbLut) : imageNRGBA64 :=
  (loopRange input.Bounds.Min.Y input.Bounds.Max.Y).foldl
    (fun dst y =>
      (loopRange input.Bounds.Min.X input.Bounds.Max.X).foldl
        (fun dst x => dst.SetNRGBA64 x y (mappedPixel input lut x y)) dst)
    (NewNRGBA64 input.Bounds)

/-- The identity table: `lut.c[i] = i` in every channel. -/
def identityLut : rgbLut := ⟨fun i => i, fun i => i, fun i => i⟩

/-- A table has `uint16` entries, as the type `lut` requires. -/
def rgbLut.WellTyped (l : rgbLut) : Prop :=
  ∀ i, i < histSize → l.r i ≤ 65535 ∧ l.g i ≤ 65535 ∧ l.b i ≤ 65535

/-! ## `config.go` -/

/-- The values of the command-line flags after `flag.Parse()`; the integer
flags are Go `int`s. -/
structure Flags where
  source : String
  destination : String
  rollingAverage : Int
  jpegCompression : Int
  threads : Int
  minBrightness : Int

/-- The function `collectConfigInformation` (`config.go`, lines 20-32), as a
function of the parsed flags: `MinBrightness` is the conversion
`uint32(minBrightnessFlag)`, the remainder modulo `2^32`. -/
def collectConfigInformation (flags : Flags) : configuration :=
  ⟨flags.source, flags.destination, flags.rollingAverage, flags.jpegCompression,
   flags.threads, (flags.minBrightness % 4294967296).toNat⟩

/-- The message of the JPEG compression check. -/
def msgJpeg : String :=
  "Invalid JPEG compression setting. Value must be between 1 and 100 (inclusive).\n"

/-- The message of the thread count check. -/
def msgThreads : String := "Invalid number of threads. There must be at least one thread.\n"

/-- The message of the rolling average check. -/
def msgRolling : String :=
  "Invalid rolling average. Value must be equal to or greater than 1.\n"

/-- The message of the minimum brightness check. -/
def msgBrightness : String := "Invalid minimum brightness. Value must be between 0 and 65535.\n"

/-- The message for an empty source directory. -/
def msgNoSource : String := "No source directory specified.\n"

/-- The message for a source directory that is not found. -/
def msgSourceMissing : String := "The source directory could not be found.\n"

/-- The message for an empty destination directory. -/
def msgNoDestination : String := "No destination directory specified.\n"

/-- The message for a destination directory that is not found. -/
def msgDestinationMissing : String := "The destination directory could not be found.\n"

/-- The function `validateConfigInformation` (`config.go`, lines 33-63) on the
global `config`. The helper `testForDirectory`, which is not among these sources,
is a parameter. The result `none` is `nil`; `some description` is
`errors.New(description)`. -/
def validateConfigInformation (config : configuration) (testForDirectory : String → Bool) :
    Option String :=
  let description := ""
  let description :=
    if config.jpegCompression < 1 ∨ config.jpegCompression > 100 then description ++ msgJpeg
    else description
  let description := if config.threads < 1 then description ++ msgThreads else description
  let description :=
    if config.rollingAverage < 0 then description ++ msgRolling else description
  let description :=
    if config.MinBrightness > 65535 then description ++ msgBrightness else description
  let description :=
    if config.sourceDirectory = "" then description ++ msgNoSource
    else if ¬ testForDirectory config.sourceDirectory then description ++ msgSourceMissing
    else description
  let description :=
    if config.destinationDirectory = "" then description ++ msgNoDestination
    else if ¬ testForDirectory config.destinationDirectory then
      description ++ msgDestinationMissing
    else description
  if description ≠ "" then some description else none

/-- The message lines of the violated conditions, concatenated in the order of
the checks: the specification of the error text, written from the claim's words. -/
def violationText (config : configuration) (testForDirectory : String → Bool) : String :=
  (if config.jpegCompression < 1 ∨ config.jpegCompression > 100 then msgJpeg else "") ++
  (if config.threads < 1 then msgThreads else "") ++
  (if config.rollingAverage < 0 then msgRolling else "") ++
  (if config.MinBrightness > 65535 then msgBrightness else "") ++
  (if config.sourceDirectory = "" then msgNoSource
   else if ¬ testForDirectory config.sourceDirectory then msgSourceMissing else "") ++
  (if config.destinationDirectory = "" then msgNoDestination
   else if ¬ testForDirectory config.destinationDirectory then msgDestinationMissing
   else "")

/-- The conditions under which the claim says validation succeeds. -/
def configuration.Valid (config : configuration) (testForDirectory : String → Bool) : Prop :=
  (1 ≤ config.jpegCompression ∧ config.jpegCompression ≤ 100) ∧
  1 ≤ config.threads ∧
  0 ≤ config.rollingAverage ∧
  config.MinBrightness ≤ 65535 ∧
  (config.sourceDirectory ≠ "" ∧ testForDirectory config.sourceDirectory = true) ∧
  (config.destinationDirectory ≠ "" ∧ testForDirectory config.destinationDirectory = true)

instance (config : configuration) (testForDirectory : String → Bool) :
    Decidable (config.Valid testForDirectory) := by
  unfold configuration.Valid
  exact inferInstance

/-- The flags of a run whose only unusual value is `-minBrightness 4294967296`. -/
def wrappedFlags : Flags := ⟨"in", "out", 15, 95, 4, 4294967296⟩

/-- A file system in which every directory exists. -/
def everyDirectory : String → Bool := fun _ => true

/-! ## The passes of `runDeflickering` (`main.go`, lines 32-61 and 116-144) -/

/-- The functions that `runDeflickering` calls and that are not among these
sources: helpers of the repository (`testForDirectory`, `readDirectory`,
`forEveryPicture`) and library functions (`imaging.Open`, `imaging.Save`,
`filepath.Ext`, `strings.TrimSuffix`), together with the float environment of the
build. `forEveryPicture` returns its two results, the slice and the error, as a
pair. -/
structure Collaborators where
  testForDirectory : String → Bool
  readDirectory : String → String → Except String (List picture)
  forEveryPicture : List picture → Int → (picture → Except String picture) →
    List picture × Option String
  imagingOpen : String → Except String Image
  imagingSave : imageNRGBA64 → String → Option String
  filepathExt : String → String
  stringsTrimSuffix : String → String → String
  floatEnv : FloatEnv

/-- The transform of the adjust pass (`main.go`, lines 117-135). -/
def adjustPicture (ext : Collaborators) (pic : picture) : Except String picture :=
  match ext.imagingOpen pic.currentPath with
  | .error errOpen =>
    .error ("Error opening image for adjust: " ++ pic.currentPath ++ " | " ++ errOpen)
  | .ok img =>
    let lut := generateRgbLutFromRgbHistograms ext.floatEnv pic.currentRgbHistogram
      pic.targetRgbHistogram
    let img := applyRgbLutToImage img lut
    let currentExt := ext.filepathExt pic.targetPath
    let pic := { pic with targetPath := ext.stringsTrimSuffix pic.targetPath currentExt ++ ".png" }
    match ext.imagingSave img pic.targetPath with
    | some err => .error ("Error saving image: " ++ pic.targetPath ++ " | " ++ err)
    | none => .ok pic

/-- The steps of `runDeflickering` that act on its surroundings, recorded in
the order in which they are executed. -/
inductive Event where
  | cleared
  | directoryRead
  | progressStarted
  | analyzePass
  | targetsAveraged
  | adjustPass
  | progressStopped
  | savedPrinted
  deriving DecidableEq

/-- How a call of `runDeflickering` ends: it returns an error value (`none` is
`nil`) or it panics. -/
inductive Outcome where
  | returned (err : Option String)
  | panicked

/-- The function `runDeflickering` (`main.go`, lines 32-144): its outcome and
the record of the steps it executed. -/
def runDeflickering (config : configuration) (ext : Collaborators) : Outcome × List Event :=
  match validateConfigInformation config ext.testForDirectory with
  | some configError => (.returned (some configError), [])
  | none =>
    match ext.readDirectory config.sourceDirectory config.destinationDirectory with
    | .error picturesError => (.returned (some picturesError), [.cleared, .directoryRead])
    | .ok pictures =>
      match ext.forEveryPicture pictures config.threads (analyzePicture config ext.imagingOpen) with
      | (_, some analyzeError) =>
        (.returned (some analyzeError),
          [.cleared, .directoryRead, .progressStarted, .analyzePass, .progressStopped])
      | (pictures, none) =>
        match averageTargets config pictures with
        | none =>
          (.panicked,
            [.cleared, .directoryRead, .progressStarted, .analyzePass, .targetsAveraged])
        | some pictures =>
          match ext.forEveryPicture pictures config.threads (adjustPicture ext) with
          | (_, some adjustError) =>
            (.returned (some adjustError),
              [.cleared, .directoryRead, .progressStarted, .analyzePass, .targetsAveraged,
               .adjustPass, .progressStopped])
          | (_, none) =>
            (.returned none,
              [.cleared, .directoryRead, .progressStarted, .analyzePass, .targetsAveraged,
               .adjustPass, .progressStopped, .cleared, .savedPrinted])

/-- Modelled from the spec: the batch pipeline `forEveryPicture`, which is not
among these sources, rendered sequentially: the transform is applied to the
pictures in order, and the first error is reported. -/
def sequentialPipeline (pictures : List picture) (_threads : Int)
    (transform : picture → Except String picture) : List picture × Option String :=
  match pictures.mapM transform with
  | .ok out => (out, none)
  | .error err => (pictures, some err)

/-- Surroundings in which both directories exist and hold one picture whose file
cannot be decoded. -/
def unreadablePicture : Collaborators :=
  ⟨everyDirectory, fun _ _ => .ok [testPicture], sequentialPipeline,
   fun _ => .error "unexpected EOF", fun _ _ => none, fun _ => ".jpg",
   fun s _ => s, amd64⟩

/-! ## Inputs of the averaging and table-application examples -/

/-- A configuration in rolling mode with window 500. -/
def window500Config : configuration := ⟨"in", "out", 500, 95, 4, 0⟩

/-- A sequence of `n` analyzed pictures of 4,300,000 black pixels each. -/
def darkFrames (n : Nat) : List picture := List.replicate n (blackPicture 4300000)

/-- A one-pixel image whose pixel is translucent: the `NRGBA64` colour
`(65535, 32768, 2, 32768)`, which `RGBA()` reads as `(32768, 16384, 1, 32768)`. -/
def translucentImage : Image := ⟨⟨⟨0, 0⟩, ⟨1, 1⟩⟩, fun _ _ => ⟨32768, 16384, 1, 32768⟩⟩

/-! # Theorems -/

/-! ## Exactness of the float model on representable values -/

theorem roundNearestEven_intCast (z : ℤ) : roundNearestEven (z : ℚ) = z := by
  simp [roundNearestEven]

/-- A value `m * 2^e` with a 53-bit significand `m` and an exponent in range is
a binary64 number: rounding leaves it unchanged. -/
theorem F64.round_exact (m : ℕ) (e : ℤ) (hm : m < 2 ^ 53) (he : -1074 ≤ e)
    (hlt : (m : ℚ) * 2 ^ e < 2 ^ (1024 : ℕ)) :
    F64.round ((m : ℚ) * 2 ^ e) = .fin ((m : ℚ) * 2 ^ e) := by
  have h2 : (0 : ℚ) < 2 := by norm_num
  have hpow : ∀ z : ℤ, (0 : ℚ) < 2 ^ z := fun z => zpow_pos h2 z
  rcases Nat.eq_zero_or_pos m with hm0 | hmpos
  · subst hm0
    simp [F64.round]
  have hq : (0 : ℚ) < (m : ℚ) * 2 ^ e := mul_pos (by exact_mod_cast hmpos) (hpow e)
  have hlog : Int.log 2 ((m : ℚ) * 2 ^ e) < 53 + e := by
    have hlt2 : (m : ℚ) * 2 ^ e < ((2 : ℕ) : ℚ) ^ (53 + e) := by
      have h53 : (m : ℚ) < 2 ^ (53 : ℤ) :=
        calc (m : ℚ) < (2 : ℚ) ^ (53 : ℕ) := by exact_mod_cast hm
          _ = 2 ^ (53 : ℤ) := by norm_num
      have := mul_lt_mul_of_pos_right h53 (hpow e)
      rw [← zpow_add₀ (by norm_num : (2 : ℚ) ≠ 0)] at this
      simpa using this
    exact (Int.lt_zpow_iff_log_lt (by norm_num) hq).1 hlt2
  have hule : ulpExponent ((m : ℚ) * 2 ^ e) ≤ e := by
    unfold ulpExponent
    exact max_le (by omega) he
  obtain ⟨k, hk⟩ : ∃ k : ℕ, e = ulpExponent ((m : ℚ) * 2 ^ e) + k :=
    ⟨(e - ulpExponent ((m : ℚ) * 2 ^ e)).toNat, by omega⟩
  have hdiv : (m : ℚ) * 2 ^ e / 2 ^ ulpExponent ((m : ℚ) * 2 ^ e) = ((m * 2 ^ k : ℕ) : ℤ) := by
    rw [div_eq_iff (ne_of_gt (hpow _))]
    conv_lhs => rw [hk]
    rw [zpow_add₀ (by norm_num : (2 : ℚ) ≠ 0), zpow_natCast]
    push_cast
    ring
  have hne : (m : ℚ) * 2 ^ e ≠ 0 := ne_of_gt hq
  have hback : (((m * 2 ^ k : ℕ) : ℤ) : ℚ) * 2 ^ ulpExponent ((m : ℚ) * 2 ^ e)
      = (m : ℚ) * 2 ^ e := by
    rw [← hdiv, div_mul_cancel₀ _ (ne_of_gt (hpow _))]
  unfold F64.round
  rw [if_neg hne]
  simp only [hdiv, roundNearestEven_intCast, hback]
  rw [if_neg (not_le.2 hlt)]

theorem F64.round_natCast (n : ℕ) (hn : n < 2 ^ 53) : F64.round (n : ℚ) = .fin n := by
  have h := F64.round_exact n 0 hn (by norm_num) (by
    have h1 : (n : ℚ) < ((2 ^ 53 : ℕ) : ℚ) := by exact_mod_cast hn
    have h2 : (((2 ^ 53 : ℕ) : ℚ)) ≤ 2 ^ (1024 : ℕ) := by norm_num
    simpa using lt_of_lt_of_le h1 h2)
  simpa using h

theorem F64.round_natCast_add_half (n : ℕ) (hn : n < 2 ^ 52) :
    F64.round ((n : ℚ) + 1 / 2) = .fin ((n : ℚ) + 1 / 2) := by
  have heq : ((2 * n + 1 : ℕ) : ℚ) * 2 ^ (-1 : ℤ) = (n : ℚ) + 1 / 2 := by
    rw [zpow_neg_one]
    push_cast
    ring
  have h := F64.round_exact (2 * n + 1) (-1) (by omega) (by norm_num) (by
    rw [heq]
    have h1 : (n : ℚ) + 1 / 2 < (4503599627370496 : ℚ) := by
      have : (n : ℚ) + 1 ≤ ((4503599627370496 : ℕ) : ℚ) := by exact_mod_cast hn
      push_cast at this
      linarith
    have h2 : (4503599627370496 : ℚ) ≤ 2 ^ (1024 : ℕ) := by norm_num
    exact lt_of_lt_of_le h1 h2)
  rw [heq] at h
  exact h

theorem toUint32_natCast_add_half (env : FloatEnv) (n : ℕ) (hn : n < u32) :
    F64.toUint32 env (.fin ((n : ℚ) + 1 / 2)) = n := by
  have hlt : (n : ℚ) + 1 / 2 < 4294967296 := by
    have : (n : ℚ) + 1 ≤ ((4294967296 : ℕ) : ℚ) := by exact_mod_cast hn
    push_cast at this
    linarith
  have hfloor : ⌊(n : ℚ) + 1 / 2⌋ = (n : ℤ) := by
    rw [Int.floor_eq_iff]
    constructor
    · push_cast; linarith
    · push_cast; linarith
  simp only [F64.toUint32, if_pos hlt, hfloor, Int.toNat_ofNat]

/-- With scale factor `1` the rescaling `uint32(0.5 + float64(t)*1)` returns `t`,
fused or not. -/
theorem rescale_one (env : FloatEnv) (t : ℕ) (ht : t < u32) :
    rescale env (.fin 1) t = t := by
  have h53 : t < 2 ^ 53 := lt_trans ht (by norm_num)
  have h52 : t < 2 ^ 52 := lt_trans ht (by norm_num)
  unfold rescale
  cases env.fused with
  | true =>
    simp only [if_true, F64.fma, F64.ofUint32, mul_one]
    rw [F64.round_natCast_add_half t h52, toUint32_natCast_add_half env t ht]
  | false =>
    simp only [Bool.false_eq_true, if_false, F64.mul, F64.ofUint32, mul_one]
    rw [F64.round_natCast t h53]
    simp only [F64.add]
    rw [add_comm, F64.round_natCast_add_half t h52, toUint32_natCast_add_half env t ht]

/-- With scale factor `0` the rescaling `uint32(0.5 + float64(t)*0)` returns `0`,
fused or not. -/
theorem rescale_zero (env : FloatEnv) (t : ℕ) : rescale env (.fin 0) t = 0 := by
  have hhalf : F64.round ((0 : ℚ) + 1 / 2) = .fin ((0 : ℚ) + 1 / 2) := by
    simpa using F64.round_natCast_add_half 0 (by norm_num)
  have hz : F64.round (0 : ℚ) = .fin 0 := by simp [F64.round]
  have hconv : F64.toUint32 env (.fin ((0 : ℚ) + 1 / 2)) = 0 := by
    simpa using toUint32_natCast_add_half env 0 (by norm_num)
  unfold rescale
  cases env.fused with
  | true =>
    simp only [if_true, F64.fma, F64.ofUint32, mul_zero]
    rw [hhalf, hconv]
  | false =>
    simp only [Bool.false_eq_true, if_false, F64.mul, F64.ofUint32, mul_zero, hz, F64.add]
    rw [add_comm, hhalf, hconv]

theorem F64.div_self_ofUint32 (n : ℕ) (hn : 0 < n) :
    F64.div (F64.ofUint32 n) (F64.ofUint32 n) = .fin 1 := by
  have hne : (n : ℚ) ≠ 0 := by exact_mod_cast (Nat.pos_iff_ne_zero.1 hn)
  simp only [F64.div, F64.ofUint32, if_neg hne, div_self hne]
  simpa using F64.round_natCast 1 (by norm_num)

theorem F64.zero_div_ofUint32 (n : ℕ) (hn : 0 < n) :
    F64.div (F64.ofUint32 0) (F64.ofUint32 n) = .fin 0 := by
  have hne : (n : ℚ) ≠ 0 := by exact_mod_cast (Nat.pos_iff_ne_zero.1 hn)
  simp [F64.div, F64.ofUint32, hne, F64.round]

/-! ## The cursor scan -/

theorem advanceCursor_ge (tgt : histogram) (c : Nat) (p : Nat) :
    p ≤ advanceCursor tgt c p := by
  generalize h : histSize - 1 - p = n
  induction n using Nat.strong_induction_on generalizing p with
  | _ n ih =>
    rw [advanceCursor]
    split_ifs with hc
    · have := ih (histSize - 1 - (p + 1)) (by omega) (p + 1) rfl
      omega
    · exact le_refl p

theorem lutLoop_cursor_mono (tgt src : histogram) {m n : Nat} (h : m ≤ n) :
    (lutLoop tgt src m).1 ≤ (lutLoop tgt src n).1 := by
  induction n with
  | zero =>
    have : m = 0 := by omega
    subst this
    exact le_refl _
  | succ n ih =>
    rcases Nat.lt_or_ge m (n + 1) with hlt | hge
    · exact le_trans (ih (by omega)) (advanceCursor_ge tgt (src n) _)
    · have : m = n + 1 := by omega
      subst this
      exact le_refl _

theorem lutLoop_entry (tgt src : histogram) {i n : Nat} (h : i < n) :
    (lutLoop tgt src n).2 i = (lutLoop tgt src (i + 1)).1 := by
  induction n with
  | zero => omega
  | succ n ih =>
    rcases Nat.lt_or_ge i n with hlt | hge
    · have hne : i ≠ n := by omega
      show Function.update (lutLoop tgt src n).2 n _ i = _
      rw [Function.update_noteq hne]
      exact ih hlt
    · have : i = n := by omega
      subst this
      show Function.update (lutLoop tgt src i).2 i _ i = _
      rw [Function.update_same]
      rfl

theorem generateLut_mono (env : FloatEnv) (current target : histogram) {i j : Nat}
    (hij : i < j) (hj : j < histSize) :
    generateLutFromHistograms env current target i
      ≤ generateLutFromHistograms env current target j := by
  unfold generateLutFromHistograms
  rw [lutLoop_entry _ _ (by omega : i < histSize), lutLoop_entry _ _ hj]
  exact lutLoop_cursor_mono _ _ (by omega)

/-! ## Cumulative histograms -/

theorem cumulative_mod (h : histogram) (i : ℕ) :
    convertToCumulativeHistogram h i % u32 = (∑ k in Finset.range (i + 1), h k) % u32 := by
  induction i with
  | zero => simp [convertToCumulativeHistogram]
  | succ i ih =>
    rw [Finset.sum_range_succ, convertToCumulativeHistogram, Nat.mod_mod, Nat.add_mod, ih,
      ← Nat.add_mod]

theorem partial_le_total (h : histogram) {i : ℕ} (hi : i < histSize) :
    (∑ k in Finset.range (i + 1), h k) ≤ h.total := by
  unfold histogram.total
  exact Finset.sum_le_sum_of_subset (by
    intro k hk
    simp only [Finset.mem_range] at hk ⊢
    omega)

/-- Without overflow the cumulative histogram is the running sum. -/
theorem cumulative_eq_sum (h : histogram) (ht : h.total < u32) {i : ℕ} (hi : i < histSize) :
    convertToCumulativeHistogram h i = ∑ k in Finset.range (i + 1), h k := by
  have hlt : (∑ k in Finset.range (i + 1), h k) < u32 :=
    lt_of_le_of_lt (partial_le_total h hi) ht
  have hmod := cumulative_mod h i
  rw [Nat.mod_eq_of_lt hlt] at hmod
  cases i with
  | zero => simp [convertToCumulativeHistogram]
  | succ j =>
    rw [← hmod, convertToCumulativeHistogram, Nat.mod_mod]

theorem cumulative_mono (h : histogram) (ht : h.total < u32) {a b : ℕ} (hab : a ≤ b)
    (hb : b < histSize) :
    convertToCumulativeHistogram h a ≤ convertToCumulativeHistogram h b := by
  rw [cumulative_eq_sum h ht (lt_of_le_of_lt hab hb), cumulative_eq_sum h ht hb]
  exact Finset.sum_le_sum_of_subset (by
    intro k hk
    simp only [Finset.mem_range] at hk ⊢
    omega)

theorem cumulative_last (h : histogram) (ht : h.total < u32) :
    convertToCumulativeHistogram h (histSize - 1) = h.total := by
  rw [cumulative_eq_sum h ht (by norm_num)]
  rfl

theorem cumulative_lt (h : histogram) (ht : h.total < u32) {i : ℕ} (hi : i < histSize) :
    convertToCumulativeHistogram h i < u32 := by
  rw [cumulative_eq_sum h ht hi]
  exact lt_of_le_of_lt (partial_le_total h hi) ht

theorem cumulative_spike (n a : ℕ) (hn : n < u32) (i : ℕ) :
    convertToCumulativeHistogram (spike n a) i = if i < a then 0 else n := by
  induction i with
  | zero =>
    simp only [convertToCumulativeHistogram, spike]
    rcases Nat.eq_zero_or_pos a with h | h
    · subst h; simp
    · rw [if_neg (by omega), if_pos h]
  | succ i ih =>
    rw [convertToCumulativeHistogram, ih]
    simp only [spike]
    rcases Nat.lt_trichotomy (i + 1) a with h | h | h
    · rw [if_pos (by omega), if_neg (by omega), if_pos h]
      rfl
    · rw [if_pos (by omega), if_pos h, if_neg (by omega), Nat.zero_add, Nat.mod_eq_of_lt hn]
    · rw [if_neg (by omega), if_neg (by omega), if_neg (by omega), Nat.add_zero,
        Nat.mod_eq_of_lt hn]

theorem total_spike (n a : ℕ) (ha : a < histSize) : (spike n a).total = n := by
  unfold histogram.total spike
  rw [Finset.sum_ite_eq' (Finset.range histSize) a (fun _ => n)]
  simp [ha]

/-! ## The ceiling match -/

theorem advanceCursor_spec (tgt : histogram) (c : ℕ) (p : ℕ) (hp : p ≤ histSize - 1) :
    advanceCursor tgt c p ≤ histSize - 1 ∧
    (∀ q, p ≤ q → q < advanceCursor tgt c p → tgt q < c) ∧
    (advanceCursor tgt c p < histSize - 1 → c ≤ tgt (advanceCursor tgt c p)) := by
  generalize h : histSize - 1 - p = n
  induction n using Nat.strong_induction_on generalizing p with
  | _ n ih =>
    rw [advanceCursor]
    split_ifs with hc
    · obtain ⟨h1, h2, h3⟩ := ih (histSize - 1 - (p + 1)) (by omega) (p + 1) (by omega) rfl
      refine ⟨h1, ?_, h3⟩
      intro q hq hlt
      rcases Nat.eq_or_lt_of_le hq with heq | hgt
      · subst heq; exact hc.2
      · exact h2 q hgt hlt
    · refine ⟨hp, ?_, ?_⟩
      · intro q hq hlt; omega
      · intro hlt
        by_contra hcon
        exact hc ⟨hlt, by omega⟩

/-- The ceiling match is the one `m ≤ 65535` below which every target bucket is
too small and which, unless it is the last bucket, is large enough. -/
theorem ceilingMatch_unique (tgt : histogram) (c m : ℕ) (hm : m ≤ histSize - 1)
    (hbelow : ∀ q, q < m → tgt q < c) (hat : m < histSize - 1 → c ≤ tgt m) :
    ceilingMatch tgt c = m := by
  unfold ceilingMatch
  split_ifs with h
  · rw [Nat.find_eq_iff]
    by_cases hlast : m < histSize - 1
    · refine ⟨⟨by omega, hat hlast⟩, ?_⟩
      intro q hq hcon
      exact absurd (hbelow q hq) (by omega)
    · have hm' : m = histSize - 1 := by omega
      obtain ⟨p, hp1, hp2⟩ := h
      have hpm : ¬ p < m := fun hlt => absurd (hbelow p hlt) (by omega)
      have hpeq : p = m := by omega
      subst hpeq
      refine ⟨⟨hp1, hp2⟩, ?_⟩
      intro q hq hcon
      exact absurd (hbelow q hq) (by omega)
  · by_contra hne
    have hlast : m < histSize - 1 := by omega
    exact h ⟨m, by omega, hat hlast⟩

theorem lutLoop_cursor_spec (tgt src : histogram) (n : ℕ) (hn : n < histSize)
    (hmono : ∀ a b, a ≤ b → b ≤ n → src a ≤ src b) :
    (lutLoop tgt src (n + 1)).1 ≤ histSize - 1 ∧
    (∀ q, q < (lutLoop tgt src (n + 1)).1 → tgt q < src n) ∧
    ((lutLoop tgt src (n + 1)).1 < histSize - 1 → src n ≤ tgt (lutLoop tgt src (n + 1)).1) := by
  induction n with
  | zero =>
    obtain ⟨h1, h2, h3⟩ := advanceCursor_spec tgt (src 0) 0 (by norm_num)
    exact ⟨h1, fun q hq => h2 q (Nat.zero_le q) hq, h3⟩
  | succ n ih =>
    obtain ⟨i1, i2, _⟩ := ih (by omega) (fun a b hab hb => hmono a b hab (by omega))
    obtain ⟨h1, h2, h3⟩ := advanceCursor_spec tgt (src (n + 1)) (lutLoop tgt src (n + 1)).1 i1
    refine ⟨h1, ?_, h3⟩
    intro q hq
    rcases Nat.lt_or_ge q (lutLoop tgt src (n + 1)).1 with hlt | hge
    · exact lt_of_lt_of_le (i2 q hlt) (hmono n (n + 1) (by omega) (le_refl _))
    · exact h2 q hge hq

/-- When the source cumulative histogram is non-decreasing, the shared cursor
stored in `lut[i]` is the ceiling match of `src[i]`. -/
theorem lutLoop_eq_ceilingMatch (tgt src : histogram)
    (hmono : ∀ a b, a ≤ b → b < histSize → src a ≤ src b) {i : ℕ} (hi : i < histSize) :
    (lutLoop tgt src histSize).2 i = ceilingMatch tgt (src i) := by
  rw [lutLoop_entry tgt src hi]
  obtain ⟨h1, h2, h3⟩ := lutLoop_cursor_spec tgt src i hi
    (fun a b hab hb => hmono a b hab (by omega))
  exact (ceilingMatch_unique tgt (src i) _ h1 h2 h3).symm

/-! ## The table of one channel -/

theorem generateLut_eq_ceilingMatch (env : FloatEnv) (current target : histogram)
    (ht : current.total < u32) {i : ℕ} (hi : i < histSize) :
    generateLutFromHistograms env current target i
      = ceilingMatch (rescaledTarget env current target)
          (convertToCumulativeHistogram current i) := by
  have h := lutLoop_eq_ceilingMatch (rescaledTarget env current target)
    (convertToCumulativeHistogram current)
    (fun _ _ hab hb => cumulative_mono current ht hab hb) hi
  rw [← h]
  rfl

theorem rescaledTarget_spike (env : FloatEnv) (n a b : ℕ) (hn : 0 < n) (hn' : n < u32)
    (ha : a < histSize) (hb : b < histSize) (p : ℕ) :
    rescaledTarget env (spike n a) (spike n b) p = if p < b then 0 else n := by
  unfold rescaledTarget
  simp only [cumulative_spike n a hn', cumulative_spike n b hn']
  rw [if_neg (by omega), if_neg (by omega), F64.div_self_ofUint32 n hn]
  split_ifs
  · exact rescale_one env 0 (by norm_num)
  · exact rescale_one env n hn'

/-- Two spikes of equal mass `n` at `a` (source) and `b` (target): the table is
`0` below `a` and `b` from `a` on. -/
theorem generateLut_spike (env : FloatEnv) (n a b : ℕ) (hn : 0 < n) (hn' : n < u32)
    (ha : a < histSize) (hb : b < histSize) {i : ℕ} (hi : i < histSize) :
    generateLutFromHistograms env (spike n a) (spike n b) i = if i < a then 0 else b := by
  rw [generateLut_eq_ceilingMatch env _ _ (by rw [total_spike n a ha]; exact hn') hi,
    cumulative_spike n a hn']
  split_ifs with h
  · exact ceilingMatch_unique _ _ 0 (by norm_num) (fun q hq => absurd hq (by omega))
      (fun _ => Nat.zero_le _)
  · apply ceilingMatch_unique _ _ b (by omega)
    · intro q hq
      rw [rescaledTarget_spike env n a b hn hn' ha hb, if_pos hq]
      exact hn
    · intro _
      rw [rescaledTarget_spike env n a b hn hn' ha hb, if_neg (by omega)]

theorem cumulative_zero (i : ℕ) : convertToCumulativeHistogram zeroHistogram i = 0 := by
  induction i with
  | zero => rfl
  | succ i ih => rw [convertToCumulativeHistogram, ih]; rfl

/-- Against an all-zero target every rescaled bucket is the conversion of `NaN`:
the scale factor is `n/0 = +Inf` and `0 * +Inf` is `NaN`. -/
theorem rescaledTarget_zero (env : FloatEnv) (n a : ℕ) (hn : 0 < n) (hn' : n < u32)
    (ha : a < histSize) (p : ℕ) :
    rescaledTarget env (spike n a) zeroHistogram p = env.unrepresentable .nan % u32 := by
  have hne : (n : ℚ) ≠ 0 := by exact_mod_cast (Nat.pos_iff_ne_zero.1 hn)
  unfold rescaledTarget
  simp only [cumulative_spike n a hn', cumulative_zero]
  rw [if_neg (by omega)]
  have hk : F64.div (F64.ofUint32 n) (F64.ofUint32 0) = .inf := by
    simp [F64.div, F64.ofUint32, hne]
  rw [hk]
  unfold rescale
  cases env.fused with
  | true => simp [F64.fma, F64.mul, F64.add, F64.ofUint32, F64.toUint32]
  | false => simp [F64.mul, F64.add, F64.ofUint32, F64.toUint32]

theorem cumulative_overflowing (i : ℕ) :
    convertToCumulativeHistogram overflowing i = if i = 0 then 4294967295 else 0 := by
  induction i with
  | zero => rfl
  | succ i ih =>
    rw [convertToCumulativeHistogram, ih]
    rcases Nat.eq_zero_or_pos i with h | h
    · subst h; rfl
    · have h1 : overflowing (i + 1) = 0 := by
        unfold overflowing
        rw [if_neg (by omega), if_neg (by omega)]
      rw [h1, if_neg (by omega), if_neg (by omega)]
      rfl

theorem rescaledTarget_overflowing (env : FloatEnv) (n b : ℕ) (hn : 0 < n) (hn' : n < u32)
    (hb : b < histSize) (p : ℕ) :
    rescaledTarget env overflowing (spike n b) p = 0 := by
  unfold rescaledTarget
  simp only [cumulative_overflowing, cumulative_spike n b hn']
  rw [if_neg (by norm_num), if_neg (by omega), F64.zero_div_ofUint32 n hn]
  exact rescale_zero env _

theorem advanceCursor_all_below (tgt : histogram) (c p : ℕ) (hp : p ≤ histSize - 1)
    (hall : ∀ q, q < histSize - 1 → tgt q < c) : advanceCursor tgt c p = histSize - 1 := by
  obtain ⟨h1, _, h3⟩ := advanceCursor_spec tgt c p hp
  by_contra hne
  have hlt : advanceCursor tgt c p < histSize - 1 := by omega
  exact absurd (hall _ hlt) (by have := h3 hlt; omega)

/-- After the overflow of the source cumulative histogram the cursor has run to
the last bucket, from which it is never rewound. -/
theorem generateLut_overflowing (env : FloatEnv) (n b : ℕ) (hn : 0 < n) (hn' : n < u32)
    (hb : b < histSize) :
    generateLutFromHistograms env overflowing (spike n b) 1 = histSize - 1 := by
  unfold generateLutFromHistograms
  rw [lutLoop_entry _ _ (by norm_num : 1 < histSize)]
  have h0 : (lutLoop (rescaledTarget env overflowing (spike n b))
      (convertToCumulativeHistogram overflowing) 1).1 = histSize - 1 := by
    show advanceCursor _ _ 0 = _
    apply advanceCursor_all_below _ _ _ (by norm_num)
    intro q _
    rw [rescaledTarget_overflowing env n b hn hn' hb, cumulative_overflowing]
    norm_num
  show advanceCursor _ _ (lutLoop _ _ 1).1 = _
  rw [h0]
  have := advanceCursor_ge (rescaledTarget env overflowing (spike n b))
    (convertToCumulativeHistogram overflowing 1) (histSize - 1)
  obtain ⟨h1, _, _⟩ := advanceCursor_spec (rescaledTarget env overflowing (spike n b))
    (convertToCumulativeHistogram overflowing 1) (histSize - 1) (le_refl _)
  exact le_antisymm h1 this

theorem cumulative_succ (h : histogram) (ht : h.total < u32) {k : ℕ} (hk : k + 1 < histSize) :
    convertToCumulativeHistogram h (k + 1) = convertToCumulativeHistogram h k + h (k + 1) := by
  rw [cumulative_eq_sum h ht hk, cumulative_eq_sum h ht (by omega : k < histSize),
    Finset.sum_range_succ _ (k + 1)]

theorem cumulative_const_of_empty (h : histogram) (ht : h.total < u32) (m : ℕ) (j : ℕ)
    (hj : j < histSize) (hmj : m ≤ j) (hzero : ∀ k, m < k → k ≤ j → h k = 0) :
    convertToCumulativeHistogram h j = convertToCumulativeHistogram h m := by
  induction j with
  | zero =>
    have : m = 0 := by omega
    subst this
    rfl
  | succ j ih =>
    rcases Nat.eq_or_lt_of_le hmj with heq | hlt
    · subst heq; rfl
    · rw [cumulative_succ h ht hj, hzero (j + 1) hlt (le_refl _), Nat.add_zero]
      exact ih (by omega) (by omega) (fun k hk hkj => hzero k hk (by omega))

theorem rescaledTarget_self (env : FloatEnv) (h : histogram) (h0 : 0 < h.total)
    (ht : h.total < u32) {p : ℕ} (hp : p < histSize) :
    rescaledTarget env h h p = convertToCumulativeHistogram h p := by
  show rescale env (F64.div (F64.ofUint32 (convertToCumulativeHistogram h (histSize - 1)))
    (F64.ofUint32 (convertToCumulativeHistogram h (histSize - 1))))
    (convertToCumulativeHistogram h p) = _
  rw [cumulative_last h ht, F64.div_self_ofUint32 _ h0]
  exact rescale_one env _ (cumulative_lt h ht hp)

/-- Matching a histogram against itself sends `i` to the last non-empty bucket
at or below `i` (to `0` when there is none). -/
theorem generateLut_self (env : FloatEnv) (h : histogram) (h0 : 0 < h.total)
    (ht : h.total < u32) {i : ℕ} (hi : i < histSize) :
    generateLutFromHistograms env h h i = Nat.findGreatest (fun k => 0 < h k) i := by
  rw [generateLut_eq_ceilingMatch env h h ht hi]
  have hle : Nat.findGreatest (fun k => 0 < h k) i ≤ i := Nat.findGreatest_le i
  apply ceilingMatch_unique _ _ _ (by omega)
  · intro q hq
    rw [rescaledTarget_self env h h0 ht (by omega : q < histSize)]
    have hpos : 0 < h (Nat.findGreatest (fun k => 0 < h k) i) :=
      Nat.findGreatest_of_ne_zero (P := fun k => 0 < h k) rfl (by omega)
    obtain ⟨m, hm⟩ : ∃ m, Nat.findGreatest (fun k => 0 < h k) i = m + 1 :=
      ⟨Nat.findGreatest (fun k => 0 < h k) i - 1, by omega⟩
    rw [hm] at hpos hq hle
    have h1 := cumulative_mono h ht (by omega : q ≤ m) (by omega : m < histSize)
    have h2 := cumulative_succ h ht (by omega : m + 1 < histSize)
    have h3 := cumulative_mono h ht hle hi
    omega
  · intro _
    rw [rescaledTarget_self env h h0 ht (by omega : _ < histSize)]
    exact le_of_eq (cumulative_const_of_empty h ht _ i hi hle (fun k hk hki => by
      have := Nat.findGreatest_is_greatest (P := fun k => 0 < h k) hk hki
      simpa using this))

/-- Matching a histogram against itself fixes exactly intensity 0 and the
intensities whose own bucket is non-empty. -/
theorem generateLut_self_fixed (env : FloatEnv) (h : histogram) (h0 : 0 < h.total)
    (ht : h.total < u32) {i : ℕ} (hi : i < histSize) :
    generateLutFromHistograms env h h i = i ↔ i = 0 ∨ 0 < h i := by
  rw [generateLut_self env h h0 ht hi, Nat.findGreatest_eq_iff]
  constructor
  · rintro ⟨_, hpos, _⟩
    rcases Nat.eq_zero_or_pos i with hz | hz
    · exact Or.inl hz
    · exact Or.inr (hpos (by omega))
  · intro hor
    refine ⟨le_refl i, fun hne => ?_, fun n hn hni => absurd hni (by omega)⟩
    rcases hor with hz | hp
    · exact absurd hz hne
    · exact hp

/-- The table for a spike of mass `n` at `a` against the all-zero target, where
`v` is what the conversion of `NaN` to `uint32` yields. -/
theorem generateLut_zero_target (env : FloatEnv) (n a : ℕ) (hn : 0 < n) (hn' : n < u32)
    (ha : a < histSize) {i : ℕ} (hi : i < histSize) :
    generateLutFromHistograms env (spike n a) zeroHistogram i
      = if i < a then 0
        else if env.unrepresentable .nan % u32 < n then histSize - 1 else 0 := by
  rw [generateLut_eq_ceilingMatch env _ _ (by rw [total_spike n a ha]; exact hn') hi,
    cumulative_spike n a hn']
  split_ifs with h1 h2
  · exact ceilingMatch_unique _ _ 0 (by norm_num) (fun q hq => absurd hq (by omega))
      (fun _ => Nat.zero_le _)
  · apply ceilingMatch_unique _ _ (histSize - 1) (le_refl _)
    · intro q _
      rw [rescaledTarget_zero env n a hn hn' ha]
      exact h2
    · intro hlt
      exact absurd hlt (lt_irrefl _)
  · apply ceilingMatch_unique _ _ 0 (by norm_num) (fun q hq => absurd hq (by omega))
    intro _
    rw [rescaledTarget_zero env n a hn hn' ha]
    omega

/-! ## The claims on `generateRgbLutFromRgbHistograms` -/

/-- Claim C1 (LUT monotonicity): for every pair of histograms, in particular for
those with non-zero channel totals, each channel of the table returned by
`generateRgbLutFromRgbHistograms` is non-decreasing in the source intensity. -/
theorem C1_lut_monotone (env : FloatEnv) (current target : rgbHistogram) (i j : Nat)
    (hij : i < j) (hj : j ≤ 65535) :
    (generateRgbLutFromRgbHistograms env current target).r i
        ≤ (generateRgbLutFromRgbHistograms env current target).r j ∧
    (generateRgbLutFromRgbHistograms env current target).g i
        ≤ (generateRgbLutFromRgbHistograms env current target).g j ∧
    (generateRgbLutFromRgbHistograms env current target).b i
        ≤ (generateRgbLutFromRgbHistograms env current target).b j :=
  ⟨generateLut_mono env _ _ hij (by show j < 65536; omega),
   generateLut_mono env _ _ hij (by show j < 65536; omega),
   generateLut_mono env _ _ hij (by show j < 65536; omega)⟩

/-- Claim C1, witness: the spike histograms of the worked example, at the source
intensities 29999 and 30000. -/
theorem C1_lut_monotone_witness :
    (29999 < 30000 ∧ 30000 ≤ 65535) ∧
    (generateRgbLutFromRgbHistograms amd64 (rgbSpike 100 30000) (rgbSpike 100 50000)).r 29999
      ≤ (generateRgbLutFromRgbHistograms amd64 (rgbSpike 100 30000) (rgbSpike 100 50000)).r 30000 :=
  ⟨by decide,
   (C1_lut_monotone amd64 (rgbSpike 100 30000) (rgbSpike 100 50000) 29999 30000
      (by decide) (by decide)).1⟩

/-- Claim C2, counterexample: the claim's equation fails at source intensity 1
when the source cumulative histogram has overflowed `uint32` (buckets
`2^32 - 1, 1, 0, ...`): the cursor ran to 65535 at intensity 0 and is not
rewound, while the ceiling match of `Csrc[1] = 0` is 0. -/
theorem C2_ceiling_match_counterexample :
    ¬ ∃ env : FloatEnv,
      (generateRgbLutFromRgbHistograms env ⟨overflowing, overflowing, overflowing⟩
          (rgbSpike 100 50000)).r 1
        = ceilingMatch (rescaledTarget env overflowing (spike 100 50000))
            ((convertToCumulativeRgbHistogram ⟨overflowing, overflowing, overflowing⟩).r 1) := by
  rintro ⟨env, h⟩
  simp only [generateRgbLutFromRgbHistograms, convertToCumulativeRgbHistogram, rgbSpike] at h
  have h1 : generateLutFromHistograms env overflowing (spike 100 50000) 1 = histSize - 1 :=
    generateLut_overflowing env 100 50000 (by norm_num) (by norm_num) (by norm_num)
  have h2 : ceilingMatch (rescaledTarget env overflowing (spike 100 50000))
      (convertToCumulativeHistogram overflowing 1) = 0 := by
    apply ceilingMatch_unique _ _ 0 (by norm_num) (fun q hq => absurd hq (by omega))
    intro _
    rw [cumulative_overflowing]
    norm_num
  rw [h1, h2] at h
  norm_num at h

/-- Claim C2 (ceiling match), amended: for every pair of histograms whose source
channel totals are below `2^32`, and every source intensity `i` in `[0, 65535]`,
`lut[i]` is the smallest target intensity whose rescaled target cumulative count
is not less than `Csrc[i]`, and 65535 when there is none. -/
theorem C2_ceiling_match (env : FloatEnv) (current target : rgbHistogram) (i : ℕ)
    (hr : current.r.total < u32) (hg : current.g.total < u32) (hb : current.b.total < u32)
    (hi : i ≤ 65535) :
    (generateRgbLutFromRgbHistograms env current target).r i
      = ceilingMatch (rescaledTarget env current.r target.r)
          ((convertToCumulativeRgbHistogram current).r i) ∧
    (generateRgbLutFromRgbHistograms env current target).g i
      = ceilingMatch (rescaledTarget env current.g target.g)
          ((convertToCumulativeRgbHistogram current).g i) ∧
    (generateRgbLutFromRgbHistograms env current target).b i
      = ceilingMatch (rescaledTarget env current.b target.b)
          ((convertToCumulativeRgbHistogram current).b i) :=
  ⟨generateLut_eq_ceilingMatch env current.r target.r hr (by show i < 65536; omega),
   generateLut_eq_ceilingMatch env current.g target.g hg (by show i < 65536; omega),
   generateLut_eq_ceilingMatch env current.b target.b hb (by show i < 65536; omega)⟩

/-- Claim C2, witness: the spike histograms of the worked example at source
intensity 30000. -/
theorem C2_ceiling_match_witness :
    ((spike 100 30000).total < u32 ∧ 30000 ≤ 65535) ∧
    (generateRgbLutFromRgbHistograms amd64 (rgbSpike 100 30000) (rgbSpike 100 50000)).r 30000
      = ceilingMatch (rescaledTarget amd64 (spike 100 30000) (spike 100 50000))
          ((convertToCumulativeRgbHistogram (rgbSpike 100 30000)).r 30000) :=
  have ht : (spike 100 30000).total < u32 := by
    rw [total_spike 100 30000 (by norm_num)]; norm_num
  ⟨⟨ht, by norm_num⟩,
   (C2_ceiling_match amd64 (rgbSpike 100 30000) (rgbSpike 100 50000) 30000 ht ht ht
      (by norm_num)).1⟩

/-- Claim C3 (single-spike worked example), in its general form: for spikes of
equal mass `n > 0` at source intensity `a` and target intensity `b`, every
channel of the table is `0` below `a` and `b` from `a` on. -/
theorem C3_single_spike (env : FloatEnv) (n a b i : ℕ) (hn : 0 < n) (hn' : n < u32)
    (ha : a ≤ 65535) (hb : b ≤ 65535) (hi : i ≤ 65535) :
    (generateRgbLutFromRgbHistograms env (rgbSpike n a) (rgbSpike n b)).r i
      = (if i < a then 0 else b) ∧
    (generateRgbLutFromRgbHistograms env (rgbSpike n a) (rgbSpike n b)).g i
      = (if i < a then 0 else b) ∧
    (generateRgbLutFromRgbHistograms env (rgbSpike n a) (rgbSpike n b)).b i
      = (if i < a then 0 else b) :=
  have h := generateLut_spike env n a b hn hn' (by show a < 65536; omega)
    (by show b < 65536; omega) (by show i < 65536; omega : i < histSize)
  ⟨h, h, h⟩

/-- Claim C3, witness: 100 pixels at 30000 against 100 pixels at 50000, read at
the source intensities 30000 (mapped to 50000) and 29999 (mapped to 0). -/
theorem C3_single_spike_witness :
    (generateRgbLutFromRgbHistograms amd64 (rgbSpike 100 30000) (rgbSpike 100 50000)).r 30000
      = 50000 ∧
    (generateRgbLutFromRgbHistograms amd64 (rgbSpike 100 30000) (rgbSpike 100 50000)).r 29999
      = 0 :=
  ⟨(C3_single_spike amd64 100 30000 50000 30000 (by norm_num) (by norm_num) (by norm_num)
      (by norm_num) (by norm_num)).1,
   (C3_single_spike amd64 100 30000 50000 29999 (by norm_num) (by norm_num) (by norm_num)
      (by norm_num) (by norm_num)).1⟩

/-- The worked example of the specification, for every source intensity and
every float environment. -/
theorem worked_example (env : FloatEnv) (i : ℕ) (hi : i < histSize) :
    (generateRgbLutFromRgbHistograms env (rgbSpike 100 30000) (rgbSpike 100 50000)).r i
      = (if i < 30000 then 0 else 50000) :=
  generateLut_spike env 100 30000 50000 (by norm_num) (by norm_num) (by norm_num)
    (by norm_num) hi

/-- Claim C4, counterexample: matching the spike histogram (100 counts at
intensity 32896, total 100 in every channel) against itself does not give the
identity: source intensity 1 is not mapped to 1 in any float environment. -/
theorem C4_self_matching_counterexample :
    (spike 100 32896).total = 100 ∧
    ¬ ∃ env : FloatEnv,
      (generateRgbLutFromRgbHistograms env (rgbSpike 100 32896) (rgbSpike 100 32896)).r 1 = 1 := by
  refine ⟨total_spike 100 32896 (by norm_num), ?_⟩
  rintro ⟨env, h⟩
  simp only [generateRgbLutFromRgbHistograms, rgbSpike] at h
  have h1 : generateLutFromHistograms env (spike 100 32896) (spike 100 32896) 1
      = (if 1 < 32896 then 0 else 32896) :=
    generateLut_spike env 100 32896 32896 (by norm_num) (by norm_num) (by norm_num)
      (by norm_num) (by norm_num)
  rw [h1] at h
  norm_num at h

/-- Claim C4 (self-matching), amended: for every histogram whose channel totals
are non-zero and below `2^32`, matching it against itself maps each source
intensity `i` to the greatest intensity at or below `i` whose bucket is
non-empty, and to 0 when there is none. -/
theorem C4_self_matching (env : FloatEnv) (h : rgbHistogram) (i : ℕ)
    (hr0 : 0 < h.r.total) (hr : h.r.total < u32)
    (hg0 : 0 < h.g.total) (hg : h.g.total < u32)
    (hb0 : 0 < h.b.total) (hb : h.b.total < u32) (hi : i ≤ 65535) :
    (generateRgbLutFromRgbHistograms env h h).r i = Nat.findGreatest (fun k => 0 < h.r k) i ∧
    (generateRgbLutFromRgbHistograms env h h).g i = Nat.findGreatest (fun k => 0 < h.g k) i ∧
    (generateRgbLutFromRgbHistograms env h h).b i = Nat.findGreatest (fun k => 0 < h.b k) i :=
  ⟨generateLut_self env h.r hr0 hr (by show i < 65536; omega),
   generateLut_self env h.g hg0 hg (by show i < 65536; omega),
   generateLut_self env h.b hb0 hb (by show i < 65536; omega)⟩

/-- Claim C4, witness: the spike histogram with 100 counts at intensity 3, read
at source intensity 5. -/
theorem C4_self_matching_witness :
    (0 < (spike 100 3).total ∧ (spike 100 3).total < u32 ∧ 5 ≤ 65535) ∧
    (generateRgbLutFromRgbHistograms amd64 (rgbSpike 100 3) (rgbSpike 100 3)).r 5
      = Nat.findGreatest (fun k => 0 < spike 100 3 k) 5 :=
  have ht : (spike 100 3).total = 100 := total_spike 100 3 (by norm_num)
  have h0 : 0 < (spike 100 3).total := by rw [ht]; norm_num
  have h1 : (spike 100 3).total < u32 := by rw [ht]; norm_num
  ⟨⟨h0, h1, by norm_num⟩,
   (C4_self_matching amd64 (rgbSpike 100 3) 5 h0 h1 h0 h1 h0 h1 (by norm_num)).1⟩

/-- Claim C5, the code at the input of `TestGenerateRgbLutFromRgbHistograms_EmptyTarget`
(100 counts at intensity `128*257 = 32896`, all-zero target): in every float
environment source intensity 1 is mapped to 0, not to 1, in all three channels;
where `NaN` converts to 0 (amd64, arm64) source intensity 32896 is mapped to 65535. -/
theorem C5_empty_target_not_identity (env : FloatEnv) :
    ((generateRgbLutFromRgbHistograms env (rgbSpike 100 32896) zeroRgbHistogram).r 1 = 0 ∧
     (generateRgbLutFromRgbHistograms env (rgbSpike 100 32896) zeroRgbHistogram).g 1 = 0 ∧
     (generateRgbLutFromRgbHistograms env (rgbSpike 100 32896) zeroRgbHistogram).b 1 = 0) ∧
    (generateRgbLutFromRgbHistograms amd64 (rgbSpike 100 32896) zeroRgbHistogram).r 32896
      = 65535 := by
  have h1 : generateLutFromHistograms env (spike 100 32896) zeroHistogram 1 = 0 := by
    rw [generateLut_zero_target env 100 32896 (by norm_num) (by norm_num) (by norm_num)
      (by norm_num)]
    norm_num
  have h2 : generateLutFromHistograms amd64 (spike 100 32896) zeroHistogram 32896 = 65535 := by
    rw [generateLut_zero_target amd64 100 32896 (by norm_num) (by norm_num) (by norm_num)
      (by norm_num)]
    norm_num [amd64]
  simp only [generateRgbLutFromRgbHistograms, rgbSpike, zeroRgbHistogram]
  exact ⟨⟨h1, h1, h1⟩, h2⟩

/-! ## `generateRgbHistogramFromImage` -/

theorem foldl_rows (g : rgbHistogram → RGBA → rgbHistogram) (f : Int → Int → RGBA)
    (xs ys : List Int) (h : rgbHistogram) :
    ys.foldl (fun h y => xs.foldl (fun h x => g h (f x y)) h) h
      = (ys.flatMap fun y => xs.map fun x => f x y).foldl g h := by
  induction ys generalizing h with
  | nil => rfl
  | cons y ys ih =>
    rw [List.foldl_cons, List.flatMap_cons, List.foldl_append, List.foldl_map]
    exact ih _

/-- The histogram is the fold of `countPixel` over the pixels in scan order. -/
theorem generateRgbHistogramFromImage_eq (img : Image) :
    generateRgbHistogramFromImage img = img.pixels.foldl countPixel zeroRgbHistogram :=
  foldl_rows countPixel img.At _ _ _

theorem increment_apply (h : histogram) (c v : ℕ) :
    increment h c v = if v = c then (h c + 1) % u32 else h v := by
  unfold increment
  by_cases hv : v = c
  · subst hv; simp
  · rw [Function.update_noteq hv, if_neg hv]

theorem foldl_increment (vals : List ℕ) (h : histogram) (v : ℕ) (hv : h v < u32) :
    (vals.foldl increment h) v = (h v + vals.count v) % u32 := by
  induction vals generalizing h with
  | nil => simp [Nat.mod_eq_of_lt hv]
  | cons c vals ih =>
    rw [List.foldl_cons, ih (increment h c) (by
      rw [increment_apply]
      split_ifs
      · exact Nat.mod_lt _ (by norm_num)
      · exact hv), increment_apply, List.count_cons]
    by_cases hc : v = c
    · subst hc
      simp only [if_true, beq_self_eq_true]
      rw [Nat.mod_add_mod]
      congr 1
      omega
    · have hc' : (c == v) = false := by simpa using fun h => hc h.symm
      rw [if_neg hc, hc']
      simp

theorem foldl_countPixel_r (px : List RGBA) (h : rgbHistogram) :
    (px.foldl countPixel h).r = (px.map fun c => c.r.val).foldl increment h.r := by
  induction px generalizing h with
  | nil => rfl
  | cons c px ih => rw [List.foldl_cons, ih]; rfl

theorem foldl_countPixel_g (px : List RGBA) (h : rgbHistogram) :
    (px.foldl countPixel h).g = (px.map fun c => c.g.val).foldl increment h.g := by
  induction px generalizing h with
  | nil => rfl
  | cons c px ih => rw [List.foldl_cons, ih]; rfl

theorem foldl_countPixel_b (px : List RGBA) (h : rgbHistogram) :
    (px.foldl countPixel h).b = (px.map fun c => c.b.val).foldl increment h.b := by
  induction px generalizing h with
  | nil => rfl
  | cons c px ih => rw [List.foldl_cons, ih]; rfl

/-- Each bucket holds the number of pixels with that channel value, modulo `2^32`. -/
theorem histogram_bucket (img : Image) (v : ℕ) :
    (generateRgbHistogramFromImage img).r v = (img.pixels.map fun c => c.r.val).count v % u32 ∧
    (generateRgbHistogramFromImage img).g v = (img.pixels.map fun c => c.g.val).count v % u32 ∧
    (generateRgbHistogramFromImage img).b v = (img.pixels.map fun c => c.b.val).count v % u32 := by
  rw [generateRgbHistogramFromImage_eq, foldl_countPixel_r, foldl_countPixel_g,
    foldl_countPixel_b]
  refine ⟨?_, ?_, ?_⟩ <;>
  · rw [foldl_increment _ _ v (by show (0 : ℕ) < u32; norm_num)]
    show (0 + _) % u32 = _
    rw [Nat.zero_add]

theorem length_flatMap_rows (f : Int → Int → RGBA) (xs ys : List Int) :
    (ys.flatMap fun y => xs.map fun x => f x y).length = ys.length * xs.length := by
  induction ys with
  | nil => simp
  | cons y ys ih =>
    rw [List.flatMap_cons, List.length_append, ih, List.length_map, List.length_cons]
    ring

theorem length_pixels (img : Image) : img.pixels.length = img.width * img.height := by
  unfold Image.pixels Image.width Image.height loopRange
  rw [length_flatMap_rows]
  simp [Nat.mul_comm]

theorem sum_count (vals : List ℕ) (hall : ∀ x ∈ vals, x < histSize) :
    ∑ v in Finset.range histSize, vals.count v = vals.length := by
  induction vals with
  | nil => simp
  | cons c vals ih =>
    have hc : c < histSize := hall c (List.mem_cons_self c vals)
    simp only [List.count_cons, Finset.sum_add_distrib, beq_iff_eq, List.length_cons]
    rw [ih (fun x hx => hall x (List.mem_cons_of_mem c hx)), Finset.sum_ite_eq]
    simp [hc]

theorem count_le_pixels (img : Image) (f : RGBA → ℕ) (v : ℕ) :
    (img.pixels.map f).count v ≤ img.width * img.height := by
  rw [← length_pixels]
  exact le_trans (List.count_le_length _ _) (le_of_eq (List.length_map _ _))

theorem pixels_blackSquare (c : RGBA) (hc : c ∈ blackSquare.pixels) : c = gray 0 := by
  unfold Image.pixels at hc
  rw [List.mem_flatMap] at hc
  obtain ⟨y, _, hy⟩ := hc
  rw [List.mem_map] at hy
  obtain ⟨x, _, hx⟩ := hy
  exact hx.symm

theorem size_blackSquare : blackSquare.width * blackSquare.height = 4294967296 := by
  decide

theorem bucket_blackSquare (v : ℕ) : (generateRgbHistogramFromImage blackSquare).r v = 0 := by
  rw [(histogram_bucket blackSquare v).1]
  rcases Nat.eq_zero_or_pos v with hv | hv
  · subst hv
    have hall : (blackSquare.pixels.map fun c => c.r.val).count 0
        = (blackSquare.pixels.map fun c => c.r.val).length := by
      rw [List.count_eq_length]
      intro b hb
      rw [List.mem_map] at hb
      obtain ⟨c, hc, hcb⟩ := hb
      rw [pixels_blackSquare c hc] at hcb
      exact hcb
    rw [hall, List.length_map, length_pixels, size_blackSquare]
    rfl
  · have hnone : (blackSquare.pixels.map fun c => c.r.val).count v = 0 := by
      rw [List.count_eq_zero]
      intro hb
      rw [List.mem_map] at hb
      obtain ⟨c, hc, hcb⟩ := hb
      rw [pixels_blackSquare c hc] at hcb
      have : (0 : ℕ) = v := hcb
      omega
    rw [hnone]
    rfl

/-! ## The claims on the histogram builder and the cumulative histogram -/

/-- Claim C6, the code at the input of the first case of
`TestGenerateRgbHistogramFromImage_BrightnessCutoff` (cutoff `50*257 = 12850`,
pixels of grey levels 0, 7710, 25700, 51400): the analyze pass counts the two
pixels whose brightness is below the cutoff, in all three channels. -/
theorem C6_cutoff_not_applied :
    (brightness (gray 0) < testConfig.MinBrightness ∧
     brightness (gray 7710) < testConfig.MinBrightness) ∧
    ∃ pic, analyzePicture testConfig (fun _ => .ok testImage) testPicture = .ok pic ∧
      (pic.currentRgbHistogram.r 0 = 1 ∧ pic.currentRgbHistogram.g 0 = 1 ∧
       pic.currentRgbHistogram.b 0 = 1) ∧
      (pic.currentRgbHistogram.r 7710 = 1 ∧ pic.currentRgbHistogram.g 7710 = 1 ∧
       pic.currentRgbHistogram.b 7710 = 1) := by
  refine ⟨by decide, _, rfl, ?_, ?_⟩
  · obtain ⟨h1, h2, h3⟩ := histogram_bucket testImage 0
    exact ⟨h1.trans (by decide), h2.trans (by decide), h3.trans (by decide)⟩
  · obtain ⟨h1, h2, h3⟩ := histogram_bucket testImage 7710
    exact ⟨h1.trans (by decide), h2.trans (by decide), h3.trans (by decide)⟩

/-- Claim C7, counterexample: for the all-black image of 65536 by 65536 pixels
the red buckets sum to 0, not to the number of pixels `2^32`: the `uint32`
bucket of intensity 0 has wrapped. -/
theorem C7_histogram_additivity_counterexample :
    blackSquare.width * blackSquare.height = 4294967296 ∧
    ∑ i in Finset.range histSize, (generateRgbHistogramFromImage blackSquare).r i = 0 :=
  ⟨size_blackSquare, Finset.sum_eq_zero fun v _ => bucket_blackSquare v⟩

/-- Claim C7 (histogram additivity), amended: for every image with fewer than
`2^32` pixels, each bucket of each channel holds the number of pixels with that
channel value, and the buckets of each channel sum to `width * height`; every
pixel is counted. -/
theorem C7_histogram_additivity (img : Image) (hsize : img.width * img.height < u32) :
    (∀ v,
      (generateRgbHistogramFromImage img).r v = (img.pixels.map fun c => c.r.val).count v ∧
      (generateRgbHistogramFromImage img).g v = (img.pixels.map fun c => c.g.val).count v ∧
      (generateRgbHistogramFromImage img).b v = (img.pixels.map fun c => c.b.val).count v) ∧
    ∑ i in Finset.range histSize, (generateRgbHistogramFromImage img).r i
      = img.width * img.height ∧
    ∑ i in Finset.range histSize, (generateRgbHistogramFromImage img).g i
      = img.width * img.height ∧
    ∑ i in Finset.range histSize, (generateRgbHistogramFromImage img).b i
      = img.width * img.height := by
  have hb : ∀ v,
      (generateRgbHistogramFromImage img).r v = (img.pixels.map fun c => c.r.val).count v ∧
      (generateRgbHistogramFromImage img).g v = (img.pixels.map fun c => c.g.val).count v ∧
      (generateRgbHistogramFromImage img).b v = (img.pixels.map fun c => c.b.val).count v := by
    intro v
    obtain ⟨h1, h2, h3⟩ := histogram_bucket img v
    rw [Nat.mod_eq_of_lt (lt_of_le_of_lt (count_le_pixels img _ v) hsize)] at h1 h2 h3
    exact ⟨h1, h2, h3⟩
  refine ⟨hb, ?_, ?_, ?_⟩
  · rw [Finset.sum_congr rfl (fun v _ => (hb v).1), sum_count, List.length_map, length_pixels]
    intro x hx
    rw [List.mem_map] at hx
    obtain ⟨c, _, hc⟩ := hx
    rw [← hc]
    exact c.r.isLt
  · rw [Finset.sum_congr rfl (fun v _ => (hb v).2.1), sum_count, List.length_map, length_pixels]
    intro x hx
    rw [List.mem_map] at hx
    obtain ⟨c, _, hc⟩ := hx
    rw [← hc]
    exact c.g.isLt
  · rw [Finset.sum_congr rfl (fun v _ => (hb v).2.2), sum_count, List.length_map, length_pixels]
    intro x hx
    rw [List.mem_map] at hx
    obtain ⟨c, _, hc⟩ := hx
    rw [← hc]
    exact c.b.isLt

/-- Claim C7, witness: the four-pixel test image, whose black pixel is counted. -/
theorem C7_histogram_additivity_witness :
    testImage.width * testImage.height < u32 ∧
    (generateRgbHistogramFromImage testImage).r 0 = 1 ∧
    ∑ i in Finset.range histSize, (generateRgbHistogramFromImage testImage).r i = 4 :=
  have hsize : testImage.width * testImage.height < u32 := by decide
  ⟨hsize,
   ((C7_histogram_additivity testImage hsize).1 0).1.trans (by decide),
   (C7_histogram_additivity testImage hsize).2.1.trans (by decide)⟩

/-- Claim C8, counterexample: for the histogram with buckets `2^32 - 1, 1, 0, ...`
the cumulative histogram decreases from bucket 0 to bucket 1, and its bucket 1 is
not `h[0] + h[1]`. -/
theorem C8_cumulative_counterexample :
    (convertToCumulativeRgbHistogram ⟨overflowing, overflowing, overflowing⟩).r 1
      < (convertToCumulativeRgbHistogram ⟨overflowing, overflowing, overflowing⟩).r 0 ∧
    (convertToCumulativeRgbHistogram ⟨overflowing, overflowing, overflowing⟩).r 1
      ≠ overflowing 0 + overflowing 1 := by
  decide

/-- Claim C8 (cumulative monotonicity), amended: for every histogram whose channel
totals are below `2^32`, each channel of `convertToCumulativeRgbHistogram` is
non-decreasing in the bucket index, is the running sum `h[0] + ... + h[i]`, and
ends in the channel total. -/
theorem C8_cumulative (h : rgbHistogram)
    (hr : h.r.total < u32) (hg : h.g.total < u32) (hb : h.b.total < u32) :
    IsRunningSum h.r (convertToCumulativeRgbHistogram h).r ∧
    IsRunningSum h.g (convertToCumulativeRgbHistogram h).g ∧
    IsRunningSum h.b (convertToCumulativeRgbHistogram h).b := by
  have key : ∀ c : histogram, c.total < u32 →
      IsRunningSum c (convertToCumulativeHistogram c) := fun c hc =>
    ⟨fun i hi => cumulative_mono c hc (Nat.le_succ i) (by show i + 1 < 65536; omega),
     fun i hi => cumulative_eq_sum c hc (by show i < 65536; omega),
     cumulative_last c hc⟩
  exact ⟨key h.r hr, key h.g hg, key h.b hb⟩

/-- Claim C8, witness: the spike histogram with 100 counts at intensity 30000. -/
theorem C8_cumulative_witness :
    (spike 100 30000).total < u32 ∧
    IsRunningSum (spike 100 30000) (convertToCumulativeRgbHistogram (rgbSpike 100 30000)).r :=
  have ht : (spike 100 30000).total < u32 := by
    rw [total_spike 100 30000 (by norm_num)]; norm_num
  ⟨ht, (C8_cumulative (rgbSpike 100 30000) ht ht ht).1⟩

/-! ## Target averaging -/

theorem isChannel_r : IsChannel (fun h => h.r) := ⟨fun _ _ _ => rfl, fun _ _ _ => rfl, fun _ => rfl⟩

theorem isChannel_g : IsChannel (fun h => h.g) := ⟨fun _ _ _ => rfl, fun _ _ _ => rfl, fun _ => rfl⟩

theorem isChannel_b : IsChannel (fun h => h.b) := ⟨fun _ _ _ => rfl, fun _ _ _ => rfl, fun _ => rfl⟩

/-- Accumulating histograms in `uint32` gives the sum of the buckets modulo `2^32`. -/
theorem channel_foldl {α : Type} (sel : rgbHistogram → histogram) (hsel : IsChannel sel)
    (F : α → rgbHistogram) (l : List α) (acc : rgbHistogram) (j : ℕ) :
    sel (l.foldl (fun acc a => addRgbHistogram acc (F a)) acc) j % u32
      = (sel acc j + (l.map fun a => sel (F a) j).sum) % u32 := by
  induction l generalizing acc with
  | nil => simp
  | cons a l ih =>
    rw [List.foldl_cons, ih, hsel.1, List.map_cons, List.sum_cons, Nat.mod_add_mod, Nat.add_assoc]

theorem channel_foldl_zero {α : Type} (sel : rgbHistogram → histogram) (hsel : IsChannel sel)
    (F : α → rgbHistogram) (l : List α) (j : ℕ) :
    sel (l.foldl (fun acc a => addRgbHistogram acc (F a)) zeroRgbHistogram) j
      = (l.map fun a => sel (F a) j).sum % u32 := by
  have h := channel_foldl sel hsel F l zeroRgbHistogram j
  rw [hsel.2.2, Nat.zero_add] at h
  rw [← h]
  cases l using List.reverseRecOn with
  | nil => simp [hsel.2.2]
  | append_singleton l a =>
    rw [List.foldl_append, List.foldl_cons, List.foldl_nil, hsel.1, Nat.mod_mod]

theorem globalAverage_eq (pictures : List picture) (hL : 0 < pictures.length)
    (hL' : pictures.length < u32) :
    globalAverage pictures
      = some (divRgbHistogram
          (pictures.foldl (fun acc pic => addRgbHistogram acc pic.currentRgbHistogram)
            zeroRgbHistogram) pictures.length) := by
  unfold globalAverage
  simp only [if_pos hL, Nat.mod_eq_of_lt hL', if_neg (Nat.pos_iff_ne_zero.1 hL)]

theorem wrapInt_id (z : ℤ) (h1 : -9223372036854775808 ≤ z) (h2 : z < 9223372036854775808) :
    wrapInt z = z := by
  unfold wrapInt
  omega

theorem mem_loopRange (lo hi idx : ℤ) : idx ∈ loopRange lo hi ↔ lo ≤ idx ∧ idx < hi := by
  unfold loopRange
  rw [List.mem_map]
  constructor
  · rintro ⟨k, hk, rfl⟩
    rw [List.mem_range] at hk
    omega
  · rintro ⟨h1, h2⟩
    exact ⟨(idx - lo).toNat, by rw [List.mem_range]; omega, by omega⟩

theorem currentAt_of_lt (pictures : List picture) (k : ℕ) (hk : k < pictures.length) :
    pictures[k]? = some pictures[k] ∧ currentAt pictures k = pictures[k].currentRgbHistogram := by
  have h : pictures[k]? = some pictures[k] := List.getElem?_eq_getElem hk
  refine ⟨h, ?_⟩
  unfold currentAt
  rw [h]

/-- The window loop never indexes outside the slice: the accumulation succeeds
and is the plain fold over the histograms at the loop's indices. -/
theorem foldlM_window (pictures : List picture) (idxs : List ℤ)
    (hall : ∀ idx ∈ idxs, 0 ≤ idx ∧ idx < pictures.length) (acc : rgbHistogram) :
    idxs.foldlM
        (fun acc idx =>
          if idx < 0 then none
          else pictures[idx.toNat]?.map fun pic => addRgbHistogram acc pic.currentRgbHistogram)
        acc
      = some (idxs.foldl (fun acc idx => addRgbHistogram acc (currentAt pictures idx.toNat)) acc) := by
  induction idxs generalizing acc with
  | nil => rfl
  | cons idx idxs ih =>
    obtain ⟨h0, h1⟩ := hall idx (List.mem_cons_self idx idxs)
    obtain ⟨hget, hcur⟩ := currentAt_of_lt pictures idx.toNat (by omega)
    rw [List.foldlM_cons, if_neg (by omega), hget, List.foldl_cons, hcur]
    exact ih (fun a ha => hall a (List.mem_cons_of_mem idx ha)) _

theorem sum_map_range (G : ℕ → ℕ) (n : ℕ) :
    ((List.range n).map G).sum = ∑ k in Finset.range n, G k := by
  induction n with
  | zero => rfl
  | succ n ih =>
    rw [List.range_succ, List.map_append, List.sum_append, ih, Finset.sum_range_succ]
    simp

/-- The sum over the loop's indices `lo, ..., hi` is the sum over the inclusive
range `[lo, hi]`. -/
theorem sum_window (G : ℕ → ℕ) (lo hi : ℕ) (hle : lo ≤ hi) :
    ((loopRange (lo : ℤ) ((hi : ℤ) + 1)).map fun idx => G idx.toNat).sum
      = ∑ k in Finset.Icc lo hi, G k := by
  have hn : ((hi : ℤ) + 1 - (lo : ℤ)).toNat = hi + 1 - lo := by omega
  unfold loopRange
  rw [hn, List.map_map, ← Nat.Ico_succ_right, Finset.sum_Ico_eq_sum_range,
    ← sum_map_range]
  show (List.map _ (List.range (hi + 1 - lo))).sum = (List.map _ (List.range (hi + 1 - lo))).sum
  congr 1

theorem windowStart_nonneg (Wz : ℤ) (i : ℕ) : 0 ≤ windowStart Wz i := by
  unfold windowStart
  simp only []
  split_ifs <;> omega

theorem windowEnd_lt (Wz : ℤ) (len i : ℕ) : windowEnd Wz len i < len := by
  unfold windowEnd
  simp only []
  split_ifs <;> omega

/-- Without `int` overflow the window starts at `max(0, i - W)`. -/
theorem windowStart_eq (W i : ℕ) (hW : (W : ℤ) < 9223372036854775808)
    (hi : (i : ℤ) < 9223372036854775808) :
    windowStart (W : ℤ) i = ((i - W : ℕ) : ℤ) := by
  unfold windowStart
  simp only []
  rw [wrapInt_id _ (by omega) (by omega)]
  split_ifs <;> omega

/-- Without `int` overflow the window ends at `min(len - 1, i + W)`. -/
theorem windowEnd_eq (W len i : ℕ) (hov : (i : ℤ) + W < 9223372036854775808)
    (hlen : 0 < len) :
    windowEnd (W : ℤ) len i = ((min (len - 1) (i + W) : ℕ) : ℤ) := by
  unfold windowEnd
  simp only []
  rw [wrapInt_id _ (by omega) (by omega)]
  rcases Nat.le_total (len - 1) (i + W) with h | h
  · rw [Nat.min_eq_left h]
    split_ifs <;> omega
  · rw [Nat.min_eq_right h]
    split_ifs <;> omega

theorem windowCount_eq (W len i : ℕ) (hov : (i : ℤ) + W < 9223372036854775808)
    (hi : i < len) (hlen : len < u32) :
    windowCount (W : ℤ) len i = ((min (len - 1) (i + W) - (i - W) + 1 : ℕ) : ℤ) := by
  change len < 4294967296 at hlen
  unfold windowCount
  rw [windowStart_eq W i (by omega) (by omega), windowEnd_eq W len i hov (by omega)]
  rcases Nat.le_total (len - 1) (i + W) with h | h
  · rw [Nat.min_eq_left h, wrapInt_id _ (by omega) (by omega)]
    omega
  · rw [Nat.min_eq_right h, wrapInt_id _ (by omega) (by omega)]
    omega

/-- In rolling mode a window never makes the averaging panic: the divisor of a
window of positive count is that count, which is at most the number of pictures. -/
theorem windowCount_lt (Wz : ℤ) (len i : ℕ) (hW1 : 1 ≤ Wz) (hW2 : Wz < 9223372036854775808)
    (hi : i < len) (hlen : len < u32) (hpos : 0 < windowCount Wz len i) :
    windowCount Wz len i ≤ len := by
  change len < 4294967296 at hlen
  unfold windowCount windowStart windowEnd wrapInt at *
  simp only [] at *
  split_ifs at * <;> omega

theorem rollingAverageAt_eq (Wz : ℤ) (pictures : List picture) (i : ℕ) :
    rollingAverageAt Wz pictures i
      = if 0 < windowCount Wz pictures.length i then
          if (windowCount Wz pictures.length i).toNat % u32 = 0 then none
          else some (divRgbHistogram
            ((loopRange (windowStart Wz i) (windowEnd Wz pictures.length i + 1)).foldl
              (fun acc idx => addRgbHistogram acc (currentAt pictures idx.toNat))
              zeroRgbHistogram)
            ((windowCount Wz pictures.length i).toNat % u32))
        else some
          ((loopRange (windowStart Wz i) (windowEnd Wz pictures.length i + 1)).foldl
            (fun acc idx => addRgbHistogram acc (currentAt pictures idx.toNat))
            zeroRgbHistogram) := by
  have hall : ∀ idx ∈ loopRange (windowStart Wz i) (windowEnd Wz pictures.length i + 1),
      0 ≤ idx ∧ idx < pictures.length := by
    intro idx hidx
    rw [mem_loopRange] at hidx
    have h1 := windowStart_nonneg Wz i
    have h2 := windowEnd_lt Wz pictures.length i
    omega
  unfold rollingAverageAt
  simp only [foldlM_window pictures _ hall, Option.map_some']

theorem rollingAverageAt_isSome (Wz : ℤ) (pictures : List picture) (i : ℕ)
    (hW1 : 1 ≤ Wz) (hW2 : Wz < 9223372036854775808) (hi : i < pictures.length)
    (hL : pictures.length < u32) :
    ∃ avg, rollingAverageAt Wz pictures i = some avg := by
  rw [rollingAverageAt_eq]
  split_ifs with h1 h2
  · have := windowCount_lt Wz pictures.length i hW1 hW2 hi hL h1
    exfalso
    have hlt : (windowCount Wz pictures.length i).toNat < u32 := by
      change pictures.length < 4294967296 at hL
      show _ < 4294967296
      omega
    rw [Nat.mod_eq_of_lt hlt] at h2
    omega
  · exact ⟨_, rfl⟩
  · exact ⟨_, rfl⟩

theorem mapM_eq_some_map {α β : Type} (f : α → Option β) (g : α → β) (l : List α)
    (h : ∀ a ∈ l, f a = some (g a)) : l.mapM f = some (l.map g) := by
  induction l with
  | nil => rfl
  | cons a l ih =>
    rw [List.mapM_cons, h a (List.mem_cons_self a l),
      ih (fun b hb => h b (List.mem_cons_of_mem a hb))]
    rfl

/-- Rolling mode without `int` overflow at position `i`: the average is the
accumulated window divided by the number of pictures in it. -/
theorem rollingAverageAt_window (W i : ℕ) (pictures : List picture) (hW : 0 < W)
    (hov : i + W < 9223372036854775808) (hi : i < pictures.length)
    (hL : pictures.length < u32) :
    rollingAverageAt (W : ℤ) pictures i
      = some (divRgbHistogram
          ((loopRange ((i - W : ℕ) : ℤ)
              (((min (pictures.length - 1) (i + W) : ℕ) : ℤ) + 1)).foldl
            (fun acc idx => addRgbHistogram acc (currentAt pictures idx.toNat))
            zeroRgbHistogram)
          (min (pictures.length - 1) (i + W) - (i - W) + 1)) := by
  have hcount := windowCount_eq W pictures.length i (by omega) hi hL
  have hn : min (pictures.length - 1) (i + W) - (i - W) + 1 ≤ pictures.length := by
    rcases Nat.le_total (pictures.length - 1) (i + W) with h | h
    · rw [Nat.min_eq_left h]; omega
    · rw [Nat.min_eq_right h]; omega
  have hmod : (min (pictures.length - 1) (i + W) - (i - W) + 1) % u32
      = min (pictures.length - 1) (i + W) - (i - W) + 1 :=
    Nat.mod_eq_of_lt (lt_of_le_of_lt hn hL)
  rw [rollingAverageAt_eq, hcount, windowStart_eq W i (by omega) (by omega),
    windowEnd_eq W pictures.length i (by omega) (by omega), Int.toNat_ofNat, hmod,
    if_pos (by omega), if_neg (by omega)]

theorem window_channel (sel : rgbHistogram → histogram) (hsel : IsChannel sel)
    (pictures : List picture) (lo hi d j : ℕ) (hle : lo ≤ hi) :
    sel (divRgbHistogram
        ((loopRange (lo : ℤ) ((hi : ℤ) + 1)).foldl
          (fun acc idx => addRgbHistogram acc (currentAt pictures idx.toNat))
          zeroRgbHistogram) d) j
      = (∑ k in Finset.Icc lo hi, sel (currentAt pictures k) j) % u32 / d := by
  rw [hsel.2.1, channel_foldl_zero sel hsel (fun idx : ℤ => currentAt pictures idx.toNat),
    sum_window (fun k => sel (currentAt pictures k) j) lo hi hle]

/-- What rolling mode computes without `int` overflow: the target of picture `i`
is, per channel and bucket, the `uint32` accumulation of the bucket over the
pictures with index in `[max(0, i-W), min(L-1, i+W)]`, that is their sum reduced
modulo `2^32`, divided by the number of pictures in that range. -/
theorem averageTargets_rolling_bucket (config : configuration) (pictures : List picture)
    (W i : ℕ) (hcfg : config.rollingAverage = (W : ℤ)) (hW : 0 < W)
    (hov : i + W < 9223372036854775808) (hi : i < pictures.length)
    (hL : pictures.length < u32) :
    ∃ out pic, averageTargets config pictures = some out ∧
      out.length = pictures.length ∧ out[i]? = some pic ∧
      ∀ j,
        pic.targetRgbHistogram.r j
          = (∑ k in Finset.Icc (i - W) (min (pictures.length - 1) (i + W)),
              (currentAt pictures k).r j) % u32
            / (min (pictures.length - 1) (i + W) - (i - W) + 1) ∧
        pic.targetRgbHistogram.g j
          = (∑ k in Finset.Icc (i - W) (min (pictures.length - 1) (i + W)),
              (currentAt pictures k).g j) % u32
            / (min (pictures.length - 1) (i + W) - (i - W) + 1) ∧
        pic.targetRgbHistogram.b j
          = (∑ k in Finset.Icc (i - W) (min (pictures.length - 1) (i + W)),
              (currentAt pictures k).b j) % u32
            / (min (pictures.length - 1) (i + W) - (i - W) + 1) := by
  have hle : i - W ≤ min (pictures.length - 1) (i + W) := by
    rw [Nat.le_min]; omega
  have hsome : ∀ ip ∈ pictures.enum,
      (rollingAverageAt config.rollingAverage pictures ip.1).map
          (fun avg => { ip.2 with targetRgbHistogram := avg })
        = some { ip.2 with targetRgbHistogram :=
            (rollingAverageAt config.rollingAverage pictures ip.1).getD zeroRgbHistogram } := by
    intro ip hip
    have hlt : ip.1 < pictures.length := by
      rw [List.mem_enum_iff_getElem?] at hip
      exact (List.getElem?_eq_some.1 hip).1
    obtain ⟨avg, havg⟩ := rollingAverageAt_isSome config.rollingAverage pictures ip.1
      (by rw [hcfg]; omega) (by rw [hcfg]; omega) hlt hL
    rw [havg]
    rfl
  refine ⟨pictures.enum.map (fun ip : ℕ × picture =>
      ({ ip.2 with targetRgbHistogram :=
          (rollingAverageAt config.rollingAverage pictures ip.1).getD zeroRgbHistogram } :
        picture)),
    ({ pictures[i] with targetRgbHistogram :=
        (rollingAverageAt config.rollingAverage pictures i).getD zeroRgbHistogram } : picture),
    ?_, ?_, ?_, ?_⟩
  · unfold averageTargets
    rw [if_neg (by rw [hcfg]; omega)]
    exact mapM_eq_some_map _ _ _ hsome
  · rw [List.length_map, List.enum_length]
  · rw [List.getElem?_map, List.getElem?_enum, List.getElem?_eq_getElem hi]
    rfl
  · intro j
    show (Option.getD (rollingAverageAt config.rollingAverage pictures i) zeroRgbHistogram).r j = _
      ∧ (Option.getD (rollingAverageAt config.rollingAverage pictures i) zeroRgbHistogram).g j = _
      ∧ (Option.getD (rollingAverageAt config.rollingAverage pictures i) zeroRgbHistogram).b j = _
    rw [hcfg, rollingAverageAt_window W i pictures hW hov hi hL, Option.getD_some]
    exact ⟨window_channel _ isChannel_r pictures _ _ _ j hle,
      window_channel _ isChannel_g pictures _ _ _ j hle,
      window_channel _ isChannel_b pictures _ _ _ j hle⟩

/-- What global mode computes: every picture is assigned the same histogram,
which per channel and bucket is the `uint32` accumulation of the bucket over all
pictures, that is their sum reduced modulo `2^32`, divided by their number. -/
theorem averageTargets_global_bucket (config : configuration) (pictures : List picture)
    (hcfg : config.rollingAverage ≤ 0) (hL : 1 ≤ pictures.length)
    (hL' : pictures.length < u32) :
    ∃ avg, averageTargets config pictures
        = some (pictures.map fun pic => { pic with targetRgbHistogram := avg }) ∧
      ∀ j,
        avg.r j = (pictures.map fun pic => pic.currentRgbHistogram.r j).sum % u32
          / pictures.length ∧
        avg.g j = (pictures.map fun pic => pic.currentRgbHistogram.g j).sum % u32
          / pictures.length ∧
        avg.b j = (pictures.map fun pic => pic.currentRgbHistogram.b j).sum % u32
          / pictures.length := by
  refine ⟨divRgbHistogram
    (pictures.foldl (fun acc pic => addRgbHistogram acc pic.currentRgbHistogram)
      zeroRgbHistogram) pictures.length, ?_, ?_⟩
  · unfold averageTargets
    rw [if_pos (by omega), globalAverage_eq pictures (by omega) hL']
    rfl
  · intro j
    have key : ∀ sel : rgbHistogram → histogram, IsChannel sel →
        sel (divRgbHistogram
          (pictures.foldl (fun acc pic => addRgbHistogram acc pic.currentRgbHistogram)
            zeroRgbHistogram) pictures.length) j
          = (pictures.map fun pic => sel pic.currentRgbHistogram j).sum % u32
            / pictures.length := fun sel hsel => by
      rw [hsel.2.1,
        channel_foldl_zero sel hsel (fun pic : picture => pic.currentRgbHistogram)]
    exact ⟨key _ isChannel_r, key _ isChannel_g, key _ isChannel_b⟩

theorem length_darkFrames (n : ℕ) : (darkFrames n).length = n := by
  unfold darkFrames
  rw [List.length_replicate]

theorem currentAt_darkFrames (n k : ℕ) (hk : k < n) :
    (currentAt (darkFrames n) k).r 0 = 4300000 := by
  have hk' : k < (darkFrames n).length := by rw [length_darkFrames]; exact hk
  rw [(currentAt_of_lt (darkFrames n) k hk').2]
  have hget : (darkFrames n)[k] = blackPicture 4300000 := by
    unfold darkFrames
    rw [List.getElem_replicate]
  rw [hget]
  rfl

/-- Bucket 0 of red summed over the positions `lo, ..., hi` of the dark frames. -/
theorem sum_darkFrames (n lo hi : ℕ) (h : hi < n) :
    ∑ k in Finset.Icc lo hi, (currentAt (darkFrames n) k).r 0 = (hi + 1 - lo) * 4300000 := by
  rw [Finset.sum_congr rfl (fun k hk =>
    currentAt_darkFrames n k (lt_of_le_of_lt (Finset.mem_Icc.1 hk).2 h))]
  rw [Finset.sum_const, Nat.card_Icc, smul_eq_mul]

/-- Bucket 0 of red summed over all the dark frames. -/
theorem sum_map_darkFrames (n : ℕ) :
    ((darkFrames n).map fun pic => pic.currentRgbHistogram.r 0).sum = n * 4300000 := by
  unfold darkFrames
  rw [List.map_replicate, List.sum_replicate, smul_eq_mul]
  rfl

/-! ## The claims on target averaging -/

/-- Claim C9, the code at window 500 and 1001 pictures of 4,300,000 black pixels
each, position 499. The window is `[max(0, 499-500), min(1000, 499+500)] = [0, 999]`,
1000 pictures, and the integer-division mean of bucket 0 over it is 4,300,000,
which a `uint32` holds. The code accumulates the sum 4,300,000,000 in a `uint32`
bucket, where it wraps to 5,032,704, and assigns `5032` as the target. -/
theorem C9_rolling_mean_lost :
    (∑ k in Finset.Icc 0 999, (currentAt (darkFrames 1001) k).r 0) / 1000 = 4300000 ∧
    4300000 < u32 ∧
    ∃ out pic, averageTargets window500Config (darkFrames 1001) = some out ∧
      out[499]? = some pic ∧ pic.targetRgbHistogram.r 0 = 5032 := by
  obtain ⟨out, pic, h1, _, h3, h4⟩ :=
    averageTargets_rolling_bucket window500Config (darkFrames 1001) 500 499 rfl
      (by norm_num) (by norm_num) (by rw [length_darkFrames]; norm_num)
      (by rw [length_darkFrames]; norm_num)
  have h := (h4 0).1
  rw [length_darkFrames, show (499 - 500 : ℕ) = 0 from rfl,
    show min (1001 - 1) (499 + 500) = 999 from rfl,
    sum_darkFrames 1001 0 999 (by norm_num)] at h
  refine ⟨?_, by norm_num, out, pic, h1, h3, ?_⟩
  · rw [sum_darkFrames 1001 0 999 (by norm_num)]
  · exact h.trans (by norm_num)

/-- Claim C10, the code in global mode at 1000 pictures of 4,300,000 black pixels
each. The mean of bucket 0 with integer division is 4,300,000, which a `uint32`
holds. The code accumulates the sum 4,300,000,000 in a `uint32` bucket, where it
wraps to 5,032,704, and assigns `5032` to every picture. -/
theorem C10_global_mean_lost :
    ((darkFrames 1000).map fun pic => pic.currentRgbHistogram.r 0).sum
        / (darkFrames 1000).length = 4300000 ∧
    4300000 < u32 ∧
    ∃ avg, averageTargets globalConfig (darkFrames 1000)
        = some ((darkFrames 1000).map fun pic => { pic with targetRgbHistogram := avg }) ∧
      avg.r 0 = 5032 := by
  obtain ⟨avg, h1, h2⟩ :=
    averageTargets_global_bucket globalConfig (darkFrames 1000) (by decide)
      (by rw [length_darkFrames]; norm_num) (by rw [length_darkFrames]; norm_num)
  have h := (h2 0).1
  rw [sum_map_darkFrames, length_darkFrames] at h
  refine ⟨?_, by norm_num, avg, h1, ?_⟩
  · rw [sum_map_darkFrames, length_darkFrames]
  · exact h.trans (by norm_num)

/-! ## `applyRgbLutToImage` -/

theorem SetNRGBA64_Rect (p : imageNRGBA64) (x y : ℤ) (c : colorNRGBA64) :
    (p.SetNRGBA64 x y c).Rect = p.Rect := by
  unfold imageNRGBA64.SetNRGBA64
  split_ifs <;> rfl

theorem SetNRGBA64_Pix (p : imageNRGBA64) (x y x' y' : ℤ) (c : colorNRGBA64) :
    (p.SetNRGBA64 x y c).Pix x' y'
      = if p.Rect.contains x y ∧ x' = x ∧ y' = y then c else p.Pix x' y' := by
  unfold imageNRGBA64.SetNRGBA64
  by_cases h : p.Rect.contains x y
  · rw [if_pos h]
    by_cases h2 : x' = x ∧ y' = y
    · rw [if_pos ⟨h, h2⟩]; exact if_pos h2
    · rw [if_neg (fun hh => h2 hh.2)]; exact if_neg h2
  · rw [if_neg h, if_neg (fun hh => h hh.1)]

/-- The inner loop over `x` on row `y`: bounds unchanged; the pixels of row `y`
at the visited columns are written, all others kept. -/
theorem row_loop (f : ℤ → ℤ → colorNRGBA64) (xs : List ℤ) (y : ℤ) (dst : imageNRGBA64) :
    (xs.foldl (fun dst x => dst.SetNRGBA64 x y (f x y)) dst).Rect = dst.Rect ∧
    ∀ x' y', (xs.foldl (fun dst x => dst.SetNRGBA64 x y (f x y)) dst).Pix x' y'
      = if dst.Rect.contains x' y' ∧ x' ∈ xs ∧ y' = y then f x' y' else dst.Pix x' y' := by
  induction xs generalizing dst with
  | nil => exact ⟨rfl, fun x' y' => by simp⟩
  | cons x xs ih =>
    obtain ⟨h1, h2⟩ := ih (dst.SetNRGBA64 x y (f x y))
    rw [List.foldl_cons]
    refine ⟨h1.trans (SetNRGBA64_Rect dst x y _), fun x' y' => ?_⟩
    rw [h2 x' y', SetNRGBA64_Rect, SetNRGBA64_Pix]
    by_cases hc : dst.Rect.contains x' y'
    · by_cases hy : y' = y
      · subst hy
        by_cases hx : x' ∈ xs
        · rw [if_pos ⟨hc, hx, rfl⟩, if_pos ⟨hc, List.mem_cons_of_mem x hx, rfl⟩]
        · rw [if_neg (fun hh => hx hh.2.1)]
          by_cases hxx : x' = x
          · subst hxx
            rw [if_pos ⟨hc, rfl, rfl⟩, if_pos ⟨hc, List.mem_cons_self _ _, rfl⟩]
          · rw [if_neg (fun hh => hxx hh.2.1),
              if_neg (fun hh => by
                rcases List.mem_cons.1 hh.2.1 with h | h
                · exact hxx h
                · exact hx h)]
      · rw [if_neg (fun hh => hy hh.2.2), if_neg (fun hh => hy hh.2.2),
          if_neg (fun hh => hy hh.2.2)]
    · have hinner : ¬ (dst.Rect.contains x y ∧ x' = x ∧ y' = y) := by
        rintro ⟨hin, hx, hy⟩
        rw [hx, hy] at hc
        exact hc hin
      rw [if_neg hinner, if_neg (fun hh => hc hh.1), if_neg (fun hh => hc hh.1)]

/-- The loop nest: bounds unchanged; the pixels at the visited positions are
written, all others kept. -/
theorem image_loop (f : ℤ → ℤ → colorNRGBA64) (xs ys : List ℤ) (dst : imageNRGBA64) :
    (ys.foldl (fun dst y => xs.foldl (fun dst x => dst.SetNRGBA64 x y (f x y)) dst) dst).Rect
      = dst.Rect ∧
    ∀ x' y',
      (ys.foldl (fun dst y => xs.foldl (fun dst x => dst.SetNRGBA64 x y (f x y)) dst) dst).Pix
          x' y'
        = if dst.Rect.contains x' y' ∧ x' ∈ xs ∧ y' ∈ ys then f x' y' else dst.Pix x' y' := by
  induction ys generalizing dst with
  | nil => exact ⟨rfl, fun x' y' => by simp⟩
  | cons y ys ih =>
    obtain ⟨r1, r2⟩ := row_loop f xs y dst
    obtain ⟨h1, h2⟩ := ih (xs.foldl (fun dst x => dst.SetNRGBA64 x y (f x y)) dst)
    rw [List.foldl_cons]
    refine ⟨h1.trans r1, fun x' y' => ?_⟩
    rw [h2 x' y', r1, r2 x' y']
    by_cases hc : dst.Rect.contains x' y'
    · by_cases hx : x' ∈ xs
      · by_cases hy : y' ∈ ys
        · rw [if_pos ⟨hc, hx, hy⟩, if_pos ⟨hc, hx, List.mem_cons_of_mem y hy⟩]
        · rw [if_neg (fun hh => hy hh.2.2)]
          by_cases hyy : y' = y
          · rw [if_pos ⟨hc, hx, hyy⟩, if_pos ⟨hc, hx, by rw [hyy]; exact List.mem_cons_self _ _⟩]
          · rw [if_neg (fun hh => hyy hh.2.2),
              if_neg (fun hh => by
                rcases List.mem_cons.1 hh.2.2 with h | h
                · exact hyy h
                · exact hy h)]
      · rw [if_neg (fun hh => hx hh.2.1), if_neg (fun hh => hx hh.2.1),
          if_neg (fun hh => hx hh.2.1)]
    · rw [if_neg (fun hh => hc hh.1), if_neg (fun hh => hc hh.1), if_neg (fun hh => hc hh.1)]

/-- The output of `applyRgbLutToImage`: the bounds of the input, and at every
position inside them the pixel of the loop body. -/
theorem applyRgbLutToImage_spec (input : Image) (lut : rgbLut) :
    (applyRgbLutToImage input lut).Rect = input.Bounds ∧
    ∀ x y, input.Bounds.contains x y →
      (applyRgbLutToImage input lut).NRGBA64At x y = mappedPixel input lut x y := by
  obtain ⟨h1, h2⟩ := image_loop (mappedPixel input lut)
    (loopRange input.Bounds.Min.X input.Bounds.Max.X)
    (loopRange input.Bounds.Min.Y input.Bounds.Max.Y) (NewNRGBA64 input.Bounds)
  have hR : (NewNRGBA64 input.Bounds).Rect = input.Bounds := rfl
  rw [hR] at h1
  simp only [hR] at h2
  refine ⟨h1, fun x y hc => ?_⟩
  unfold imageNRGBA64.NRGBA64At applyRgbLutToImage
  rw [h1, if_pos hc, h2 x y, if_pos]
  refine ⟨hc, ?_, ?_⟩
  · rw [mem_loopRange]; exact ⟨hc.1, hc.2.1⟩
  · rw [mem_loopRange]; exact ⟨hc.2.2.1, hc.2.2.2⟩

theorem RGBA_opaque (R G B : ℕ) (hR : R ≤ 65535) (hG : G ≤ 65535) (hB : B ≤ 65535) :
    colorNRGBA64.RGBA ⟨R, G, B, 65535⟩ = (R, G, B, 65535) := by
  have key : ∀ v : ℕ, v ≤ 65535 → v * 65535 % u32 / 65535 = v := by
    intro v hv
    have hlt : v * 65535 < u32 := by
      show v * 65535 < 4294967296
      omega
    rw [Nat.mod_eq_of_lt hlt, Nat.mul_div_cancel v (by norm_num)]
  unfold colorNRGBA64.RGBA
  simp only [key R hR, key G hG, key B hB]

theorem identityLut_wellTyped : identityLut.WellTyped := by
  intro i hi
  change i < 65536 at hi
  exact ⟨by show i ≤ 65535; omega, by show i ≤ 65535; omega, by show i ≤ 65535; omega⟩

/-! ## The claims on `applyRgbLutToImage` -/

/-- Claim C11, the code at a translucent pixel: the one-pixel image whose pixel
is the `NRGBA64` colour `(65535, 32768, 2, 32768)` under the identity table. The
bounds are accepted by `image.NewNRGBA64`. The input pixel reads through
`RGBA()` as `(32768, 16384, 1, 32768)`; these alpha-premultiplied components are
stored as the non-premultiplied fields of the output pixel, so the output pixel
reads through `RGBA()` as `(16384, 8192, 0, 32768)`: its red, green and blue are
not `lut.r[r]`, `lut.g[g]`, `lut.b[b]` of the input pixel's red, green and blue. -/
theorem C11_translucent_pixel_altered :
    pixelBufferLength translucentImage.Bounds = some 8 ∧
    translucentImage.Bounds.contains 0 0 ∧
    colorNRGBA64.RGBA ⟨65535, 32768, 2, 32768⟩
      = ((translucentImage.At 0 0).r.val, (translucentImage.At 0 0).g.val,
         (translucentImage.At 0 0).b.val, (translucentImage.At 0 0).a.val) ∧
    (applyRgbLutToImage translucentImage identityLut).Rect = translucentImage.Bounds ∧
    (applyRgbLutToImage translucentImage identityLut).NRGBA64At 0 0
      = ⟨32768, 16384, 1, 32768⟩ ∧
    ((applyRgbLutToImage translucentImage identityLut).NRGBA64At 0 0).RGBA
      = (16384, 8192, 0, 32768) ∧
    ((applyRgbLutToImage translucentImage identityLut).NRGBA64At 0 0).RGBA
      ≠ (identityLut.r (translucentImage.At 0 0).r, identityLut.g (translucentImage.At 0 0).g,
         identityLut.b (translucentImage.At 0 0).b, (translucentImage.At 0 0).a.val) := by
  obtain ⟨hR, hP⟩ := applyRgbLutToImage_spec translucentImage identityLut
  have hc : translucentImage.Bounds.contains 0 0 := by decide
  have hpix : (applyRgbLutToImage translucentImage identityLut).NRGBA64At 0 0
      = ⟨32768, 16384, 1, 32768⟩ := by
    rw [hP 0 0 hc]
    rfl
  refine ⟨by decide, hc, by decide, hR, hpix, ?_, ?_⟩
  · rw [hpix]
    decide
  · rw [hpix]
    decide

/-- Claim C20 (opaque pixels): for every image, every well-typed table and every
position inside the bounds whose input pixel has alpha `0xffff`, the output pixel
reads back through `RGBA()` as `(lut.r[r], lut.g[g], lut.b[b], 0xffff)`; with the
identity table it reads back as the input pixel. -/
theorem C20_opaque_readback (input : Image) (lut : rgbLut) (x y : ℤ)
    (hin : input.Bounds.contains x y) (hlut : lut.WellTyped)
    (ha : (input.At x y).a.val = 65535) :
    ((applyRgbLutToImage input lut).NRGBA64At x y).RGBA
      = (lut.r (input.At x y).r, lut.g (input.At x y).g, lut.b (input.At x y).b, 65535) ∧
    ((applyRgbLutToImage input identityLut).NRGBA64At x y).RGBA
      = ((input.At x y).r.val, (input.At x y).g.val, (input.At x y).b.val,
         (input.At x y).a.val) := by
  have hmod : (input.At x y).a.val % 65536 = 65535 := by rw [ha]
  constructor
  · rw [(applyRgbLutToImage_spec input lut).2 x y hin]
    unfold mappedPixel
    rw [hmod]
    exact RGBA_opaque _ _ _ (hlut _ (input.At x y).r.isLt).1 (hlut _ (input.At x y).g.isLt).2.1
      (hlut _ (input.At x y).b.isLt).2.2
  · rw [(applyRgbLutToImage_spec input identityLut).2 x y hin]
    unfold mappedPixel
    rw [hmod, ha]
    exact RGBA_opaque _ _ _
      (identityLut_wellTyped _ (input.At x y).r.isLt).1
      (identityLut_wellTyped _ (input.At x y).g.isLt).2.1
      (identityLut_wellTyped _ (input.At x y).b.isLt).2.2

/-- Claim C20, witness: the second pixel of the four-pixel test image (opaque
grey of level 7710) under the identity table. -/
theorem C20_opaque_readback_witness :
    (testImage.Bounds.contains 1 0 ∧ identityLut.WellTyped ∧
      (testImage.At 1 0).a.val = 65535) ∧
    ((applyRgbLutToImage testImage identityLut).NRGBA64At 1 0).RGBA
      = ((testImage.At 1 0).r.val, (testImage.At 1 0).g.val, (testImage.At 1 0).b.val,
         (testImage.At 1 0).a.val) :=
  ⟨⟨by decide, identityLut_wellTyped, by decide⟩,
   (C20_opaque_readback testImage identityLut 1 0 (by decide) identityLut_wellTyped
      (by decide)).2⟩

/-! ## Configuration -/

theorem append_if (d m : String) (c : Prop) [Decidable c] :
    (if c then d ++ m else d) = d ++ (if c then m else "") := by
  split_ifs <;> simp

theorem append_ite (d m1 m2 : String) (c : Prop) [Decidable c] :
    (if c then d ++ m1 else d ++ m2) = d ++ (if c then m1 else m2) := by
  split_ifs <;> rfl

/-- The description built by `validateConfigInformation` is the concatenation
of the message lines of the violated conditions. -/
theorem validate_eq_text (config : configuration) (tfd : String → Bool) :
    validateConfigInformation config tfd
      = if violationText config tfd ≠ "" then some (violationText config tfd) else none := by
  unfold validateConfigInformation violationText
  simp -zeta only [append_if, append_ite]
  simp only [String.empty_append]

theorem string_eq_empty_iff (s : String) : s = "" ↔ s.data = [] := by
  rw [String.ext_iff]

theorem line_data_nil (m : String) (hm : m.data ≠ []) (c : Prop) [Decidable c] :
    (if c then m else "").data = [] ↔ ¬ c := by
  split_ifs with h
  · exact ⟨fun hh => absurd hh hm, fun hh => absurd h hh⟩
  · exact ⟨fun _ => h, fun _ => rfl⟩

theorem line2_data_nil (m1 m2 : String) (h1 : m1.data ≠ []) (h2 : m2.data ≠ [])
    (c1 c2 : Prop) [Decidable c1] [Decidable c2] :
    (if c1 then m1 else if c2 then m2 else "").data = [] ↔ ¬ c1 ∧ ¬ c2 := by
  split_ifs with a b
  · exact ⟨fun hh => absurd hh h1, fun hh => absurd a hh.1⟩
  · exact ⟨fun hh => absurd hh h2, fun hh => absurd b hh.2⟩
  · exact ⟨fun _ => ⟨a, b⟩, fun _ => rfl⟩

/-- No message line is written exactly when the configuration is valid. -/
theorem violationText_eq_empty_iff (config : configuration) (tfd : String → Bool) :
    violationText config tfd = "" ↔ config.Valid tfd := by
  rw [string_eq_empty_iff]
  unfold violationText configuration.Valid
  simp only [String.data_append, List.append_eq_nil,
    line_data_nil msgJpeg (by decide), line_data_nil msgThreads (by decide),
    line_data_nil msgRolling (by decide), line_data_nil msgBrightness (by decide),
    line2_data_nil msgNoSource msgSourceMissing (by decide) (by decide),
    line2_data_nil msgNoDestination msgDestinationMissing (by decide) (by decide)]
  constructor
  · rintro ⟨⟨⟨⟨⟨h1, h2⟩, h3⟩, h4⟩, h5, h5'⟩, h6, h6'⟩
    exact ⟨by omega, by omega, by omega, by omega, ⟨h5, by simpa using h5'⟩,
      ⟨h6, by simpa using h6'⟩⟩
  · rintro ⟨h1, h2, h3, h4, ⟨h5, h5'⟩, ⟨h6, h6'⟩⟩
    exact ⟨⟨⟨⟨⟨by omega, by omega⟩, by omega⟩, by omega⟩, h5, by simpa using h5'⟩, h6,
      by simpa using h6'⟩

theorem validate_none_iff (config : configuration) (tfd : String → Bool) :
    validateConfigInformation config tfd = none ↔ config.Valid tfd := by
  rw [validate_eq_text, ← violationText_eq_empty_iff]
  split_ifs with h
  · exact ⟨fun hh => hh.elim, fun hh => absurd hh h⟩
  · exact ⟨fun _ => not_not.1 h, fun _ => rfl⟩

/-! ## The claims on the passes and the configuration -/

/-- Claim C12 (pass barrier on failure): if validation fails, nothing else is
executed and its error is returned; if reading the directory fails, or the
analyze pass reports an error, that error is returned and neither the target
averaging nor the adjust pass is executed; if the adjust pass reports an error,
that error is returned. -/
theorem C12_pass_barrier (config : configuration) (ext : Collaborators) :
    (∀ e, validateConfigInformation config ext.testForDirectory = some e →
      runDeflickering config ext = (.returned (some e), [])) ∧
    (validateConfigInformation config ext.testForDirectory = none →
      (∀ e, ext.readDirectory config.sourceDirectory config.destinationDirectory = .error e →
        (runDeflickering config ext).1 = .returned (some e) ∧
        Event.analyzePass ∉ (runDeflickering config ext).2 ∧
        Event.targetsAveraged ∉ (runDeflickering config ext).2 ∧
        Event.adjustPass ∉ (runDeflickering config ext).2) ∧
      (∀ pictures, ext.readDirectory config.sourceDirectory config.destinationDirectory
          = .ok pictures →
        (∀ failed e,
          ext.forEveryPicture pictures config.threads (analyzePicture config ext.imagingOpen)
            = (failed, some e) →
          (runDeflickering config ext).1 = .returned (some e) ∧
          Event.targetsAveraged ∉ (runDeflickering config ext).2 ∧
          Event.adjustPass ∉ (runDeflickering config ext).2) ∧
        (∀ analyzed averaged failed e,
          ext.forEveryPicture pictures config.threads (analyzePicture config ext.imagingOpen)
            = (analyzed, none) →
          averageTargets config analyzed = some averaged →
          ext.forEveryPicture averaged config.threads (adjustPicture ext) = (failed, some e) →
          (runDeflickering config ext).1 = .returned (some e)))) := by
  refine ⟨fun e he => ?_, fun hv => ⟨fun e he => ?_, fun pictures hp => ⟨fun failed e ha => ?_,
    fun analyzed averaged failed e ha hav hadj => ?_⟩⟩⟩
  · unfold runDeflickering
    rw [he]
  · unfold runDeflickering
    rw [hv, he]
    dsimp only
    exact ⟨rfl, by decide, by decide, by decide⟩
  · unfold runDeflickering
    rw [hv, hp]
    simp only [ha]
    exact ⟨by first | rfl | trivial, by decide, by decide⟩
  · unfold runDeflickering
    rw [hv, hp]
    simp only [ha, hav, hadj]

/-- Claim C12, witness: a valid configuration and a directory with one picture
whose file cannot be decoded; the analyze pass fails and its error is returned
without averaging or adjusting. -/
theorem C12_pass_barrier_witness :
    (runDeflickering testConfig unreadablePicture).1
        = .returned (some "in/a.png | unexpected EOF") ∧
    Event.targetsAveraged ∉ (runDeflickering testConfig unreadablePicture).2 ∧
    Event.adjustPass ∉ (runDeflickering testConfig unreadablePicture).2 :=
  ((C12_pass_barrier testConfig unreadablePicture).2
      ((validate_none_iff testConfig everyDirectory).2 (by decide))).2
    [testPicture] rfl |>.1 [testPicture] "in/a.png | unexpected EOF" rfl

/-- Claim C13, the code at the flag value `-minBrightness 4294967296`, which is
outside `[0, 65535]`: the conversion to `uint32` stores 0, and validation of the
otherwise valid configuration returns `nil`, without the minimum brightness
message. -/
theorem C13_wrapped_brightness_accepted :
    ¬ (0 ≤ wrappedFlags.minBrightness ∧ wrappedFlags.minBrightness ≤ 65535) ∧
    (collectConfigInformation wrappedFlags).MinBrightness = 0 ∧
    validateConfigInformation (collectConfigInformation wrappedFlags) everyDirectory = none :=
  ⟨by decide, by decide,
   (validate_none_iff (collectConfigInformation wrappedFlags) everyDirectory).2 (by decide)⟩

/-- Claim C14 (validation is exact): `validateConfigInformation` returns `nil`
exactly when the compression is in `[1, 100]`, there is at least one thread, the
rolling average is not negative, the minimum brightness is at most 65535 and both
directories are named and exist; otherwise the error text is the concatenation
of the message lines of the violated conditions. A negative rolling average is
always rejected, and the rolling average 0 of an otherwise valid configuration
is accepted. -/
theorem C14_validation_exact (config : configuration) (testForDirectory : String → Bool) :
    (validateConfigInformation config testForDirectory = none ↔ config.Valid testForDirectory) ∧
    (¬ config.Valid testForDirectory →
      validateConfigInformation config testForDirectory
        = some (violationText config testForDirectory)) ∧
    (config.rollingAverage < 0 → validateConfigInformation config testForDirectory ≠ none) ∧
    (config.Valid testForDirectory →
      validateConfigInformation { config with rollingAverage := 0 } testForDirectory = none) := by
  refine ⟨validate_none_iff config testForDirectory, fun h => ?_, fun h hn => ?_, fun h => ?_⟩
  · rw [validate_eq_text, if_pos]
    rwa [Ne, violationText_eq_empty_iff]
  · have hv := (validate_none_iff config testForDirectory).1 hn
    have := hv.2.2.1
    omega
  · rw [validate_none_iff]
    exact ⟨h.1, h.2.1, le_refl 0, h.2.2.2.1, h.2.2.2.2.1, h.2.2.2.2.2⟩

/-! ## The claims on the rolling window -/

/-- Without `int` overflow the count of the window at position `i` is
`min(L-1, i+W) - max(0, i-W) + 1`. -/
theorem windowCount_formula (W L i : ℕ) (hi : i < L) (hL : L ≤ 4611686018427387904)
    (hW : W ≤ 4611686018427387904) :
    windowCount (W : ℤ) L i = min ((L : ℤ) - 1) ((i : ℤ) + W) - max 0 ((i : ℤ) - W) + 1 := by
  unfold windowCount windowStart windowEnd wrapInt
  simp only [min_def, max_def]
  split_ifs <;> omega

/-- Claim C16, counterexample: with three pictures and window 2 every window
covers the whole sequence: the boundary position 0 averages 3 pictures, as many
as the interior position 1, not strictly fewer. -/
theorem C16_boundary_windows_counterexample :
    windowCount 2 3 0 = 3 ∧ windowCount 2 3 1 = 3 ∧ ¬ (windowCount 2 3 0 < windowCount 2 3 1) := by
  decide

/-- Claim C16 (boundary windows are smaller), amended: for a sequence of length
`L` and a rolling window `W` with `0 < W < L - 1`, the number of pictures averaged
at each boundary position (`0` and `L - 1`) is strictly less than the number
averaged at every interior position `j`; the number averaged at position `i` is
`min(L-1, i+W) - max(0, i-W) + 1`. -/
theorem C16_boundary_windows (W L j : ℕ) (hW : 0 < W) (hWL : W + 1 < L)
    (hL : L ≤ 4611686018427387904) (hj0 : 0 < j) (hj : j + 1 < L) :
    (∀ i, i < L →
      windowCount (W : ℤ) L i
        = min ((L : ℤ) - 1) ((i : ℤ) + W) - max 0 ((i : ℤ) - W) + 1) ∧
    windowCount (W : ℤ) L 0 < windowCount (W : ℤ) L j ∧
    windowCount (W : ℤ) L (L - 1) < windowCount (W : ℤ) L j := by
  have hform : ∀ i, i < L →
      windowCount (W : ℤ) L i
        = min ((L : ℤ) - 1) ((i : ℤ) + W) - max 0 ((i : ℤ) - W) + 1 :=
    fun i hi => windowCount_formula W L i hi hL (by omega)
  refine ⟨hform, ?_, ?_⟩
  · rw [hform 0 (by omega), hform j (by omega)]
    simp only [min_def, max_def]
    split_ifs <;> omega
  · rw [hform (L - 1) (by omega), hform j (by omega)]
    simp only [min_def, max_def]
    split_ifs <;> omega

/-- Claim C16, witness: five pictures and window 1; the boundaries average 2
pictures, the interior position 2 averages 3. -/
theorem C16_boundary_windows_witness :
    (0 < 1 ∧ 1 + 1 < 5 ∧ 5 ≤ 4611686018427387904 ∧ 0 < 2 ∧ 2 + 1 < 5) ∧
    windowCount ((1 : ℕ) : ℤ) 5 0 < windowCount ((1 : ℕ) : ℤ) 5 2 ∧
    windowCount ((1 : ℕ) : ℤ) 5 (5 - 1) < windowCount ((1 : ℕ) : ℤ) 5 2 :=
  ⟨by decide,
   (C16_boundary_windows 1 5 2 (by decide) (by decide) (by decide) (by decide) (by decide)).2⟩

/-- Claim C17, counterexample: with the window `2^63 - 1`, two pictures and
position 1, `i + window` overflows: the window ends before position 1, its count
is not positive, so the guard's skip branch is taken and the target of picture 1
stays zero. -/
theorem C17_no_division_by_zero_counterexample :
    (1 ≤ hugeWindowConfig.rollingAverage ∧ 1 < [blackPicture 100, blackPicture 100].length) ∧
    windowEnd hugeWindowConfig.rollingAverage 2 1 < 1 ∧
    ¬ (0 < windowCount hugeWindowConfig.rollingAverage 2 1) ∧
    (averageTargets hugeWindowConfig [blackPicture 100, blackPicture 100]).map
        (fun out => out.map fun pic => pic.targetRgbHistogram.r 0) = some [100, 0] := by
  decide

theorem averageTargets_isSome (config : configuration) (pictures : List picture)
    (hW : config.rollingAverage < 9223372036854775808) (hL : pictures.length < u32) :
    ∃ out, averageTargets config pictures = some out := by
  unfold averageTargets
  split_ifs with h
  · rcases Nat.eq_zero_or_pos pictures.length with h0 | h0
    · unfold globalAverage
      simp only [if_neg (show ¬ 0 < pictures.length by omega)]
      exact ⟨_, rfl⟩
    · rw [globalAverage_eq pictures h0 hL]
      exact ⟨_, rfl⟩
  · refine ⟨_, mapM_eq_some_map _
      (fun ip : ℕ × picture =>
        ({ ip.2 with targetRgbHistogram :=
            (rollingAverageAt config.rollingAverage pictures ip.1).getD zeroRgbHistogram } :
          picture)) _ ?_⟩
    intro ip hip
    have hlt : ip.1 < pictures.length := by
      rw [List.mem_enum_iff_getElem?] at hip
      exact (List.getElem?_eq_some.1 hip).1
    obtain ⟨avg, havg⟩ := rollingAverageAt_isSome config.rollingAverage pictures ip.1
      (by omega) hW hlt hL
    simp only [havg]
    rfl

/-- Claim C17 (no division by zero), amended: for every sequence of fewer than
`2^32` pictures and every window value, the averaging step does not panic and
every division it performs has a divisor of at least 1; in rolling mode, at every
position `i` with `i + W` below `2^63`, `start ≤ i ≤ end`, so the count is at
least 1 and the skip branch is not taken; for the empty sequence the step returns
the empty sequence. -/
theorem C17_no_division_by_zero (config : configuration) (pictures : List picture)
    (hW : config.rollingAverage < 9223372036854775808) (hL : pictures.length < u32) :
    (∃ out, averageTargets config pictures = some out) ∧
    (0 < pictures.length → 1 ≤ pictures.length % u32) ∧
    (∀ i, i < pictures.length → 1 ≤ config.rollingAverage →
      0 < windowCount config.rollingAverage pictures.length i →
      1 ≤ (windowCount config.rollingAverage pictures.length i).toNat % u32) ∧
    (∀ i, i < pictures.length → 1 ≤ config.rollingAverage →
      (i : ℤ) + config.rollingAverage < 9223372036854775808 →
      windowStart config.rollingAverage i ≤ i ∧
      (i : ℤ) ≤ windowEnd config.rollingAverage pictures.length i ∧
      1 ≤ windowCount config.rollingAverage pictures.length i) ∧
    averageTargets config [] = some [] := by
  refine ⟨averageTargets_isSome config pictures hW hL, fun h0 => ?_, fun i hi hW1 hpos => ?_,
    fun i hi hW1 hov => ?_, ?_⟩
  · rw [Nat.mod_eq_of_lt hL]; exact h0
  · have hle := windowCount_lt config.rollingAverage pictures.length i hW1 hW hi hL hpos
    have hlt : (windowCount config.rollingAverage pictures.length i).toNat < u32 := by
      change pictures.length < 4294967296 at hL
      show _ < 4294967296
      omega
    rw [Nat.mod_eq_of_lt hlt]
    omega
  · change pictures.length < 4294967296 at hL
    unfold windowCount windowStart windowEnd wrapInt
    simp only []
    split_ifs <;> omega
  · unfold averageTargets
    split_ifs <;> rfl

/-- Claim C17, witness: three pictures of 100 black pixels in rolling mode with
window 1. -/
theorem C17_no_division_by_zero_witness :
    (rollingConfig.rollingAverage < 9223372036854775808 ∧
      [blackPicture 100, blackPicture 100, blackPicture 100].length < u32) ∧
    ∃ out, averageTargets rollingConfig [blackPicture 100, blackPicture 100, blackPicture 100]
      = some out :=
  ⟨by decide,
   (C17_no_division_by_zero rollingConfig [blackPicture 100, blackPicture 100, blackPicture 100]
      (by decide) (by decide)).1⟩

/-! ## Monotonicity and accuracy of the rounding -/

theorem F64.round_eq (q : ℚ) :
    F64.round q
      = if (2 : ℚ) ^ (1024 : ℕ) ≤ roundedValue q then .inf else .fin (roundedValue q) := by
  unfold F64.round roundedValue
  by_cases hq : q = 0
  · rw [if_pos hq, if_pos hq, if_neg (by norm_num)]
  · rw [if_neg hq, if_neg hq]

theorem roundedValue_of_round {q v : ℚ} (h : F64.round q = .fin v) : roundedValue q = v := by
  rw [F64.round_eq] at h
  split_ifs at h
  exact F64.fin.inj h

theorem round_of_roundedValue_lt {q : ℚ} (h : roundedValue q < 2 ^ (1024 : ℕ)) :
    F64.round q = .fin (roundedValue q) := by
  rw [F64.round_eq, if_neg (not_le.2 h)]

theorem roundedValue_exact (m : ℕ) (e : ℤ) (hm : m < 2 ^ 53) (he : -1074 ≤ e)
    (hlt : (m : ℚ) * 2 ^ e < 2 ^ (1024 : ℕ)) :
    roundedValue ((m : ℚ) * 2 ^ e) = (m : ℚ) * 2 ^ e :=
  roundedValue_of_round (F64.round_exact m e hm he hlt)

theorem floor_le_roundNearestEven (x : ℚ) : ⌊x⌋ ≤ roundNearestEven x := by
  unfold roundNearestEven
  simp only []
  split_ifs <;> omega

theorem roundNearestEven_le_floor_add_one (x : ℚ) : roundNearestEven x ≤ ⌊x⌋ + 1 := by
  unfold roundNearestEven
  simp only []
  split_ifs <;> omega

theorem roundNearestEven_mono {x y : ℚ} (h : x ≤ y) :
    roundNearestEven x ≤ roundNearestEven y := by
  rcases (Int.floor_mono h).lt_or_eq with hlt | heq
  · calc roundNearestEven x ≤ ⌊x⌋ + 1 := roundNearestEven_le_floor_add_one x
      _ ≤ ⌊y⌋ := hlt
      _ ≤ roundNearestEven y := floor_le_roundNearestEven y
  · unfold roundNearestEven
    simp only []
    rw [← heq]
    split_ifs <;> first | omega | (exfalso; linarith)

theorem roundNearestEven_sub_le (x : ℚ) : |(roundNearestEven x : ℚ) - x| ≤ 1 / 2 := by
  have h1 := Int.floor_le x
  have h2 := Int.lt_floor_add_one x
  unfold roundNearestEven
  simp only []
  rw [abs_le]
  split_ifs <;> push_cast <;> constructor <;> linarith

theorem roundNearestEven_nonneg {x : ℚ} (h : 0 ≤ x) : 0 ≤ roundNearestEven x := by
  have := roundNearestEven_mono h
  rwa [show roundNearestEven 0 = 0 by simpa using roundNearestEven_intCast 0] at this

theorem roundedValue_nonneg {q : ℚ} (h : 0 ≤ q) : 0 ≤ roundedValue q := by
  unfold roundedValue
  split_ifs
  · exact le_refl 0
  · have hp : (0 : ℚ) < 2 ^ ulpExponent q := zpow_pos (by norm_num) _
    exact mul_nonneg (by exact_mod_cast roundNearestEven_nonneg (div_nonneg h hp.le)) hp.le

/-- Rounding to binary64 is monotone on the non-negative rationals. -/
theorem roundedValue_mono {q q' : ℚ} (h0 : 0 ≤ q) (h : q ≤ q') :
    roundedValue q ≤ roundedValue q' := by
  have h2 : (0 : ℚ) < 2 := by norm_num
  have hpow : ∀ z : ℤ, (0 : ℚ) < 2 ^ z := fun z => zpow_pos h2 z
  rcases h0.eq_or_lt with hq0 | hqpos
  · rw [← hq0]
    have : roundedValue 0 = 0 := by simp [roundedValue]
    rw [this]
    exact roundedValue_nonneg (le_trans h0 h)
  have hq'pos : 0 < q' := lt_of_lt_of_le hqpos h
  have hlogle : Int.log 2 q ≤ Int.log 2 q' := Int.log_mono_right hqpos h
  have he : ulpExponent q ≤ ulpExponent q' := by
    unfold ulpExponent
    exact max_le_max (by omega) (le_refl _)
  unfold roundedValue
  rw [if_neg (ne_of_gt hqpos), if_neg (ne_of_gt hq'pos)]
  rcases he.lt_or_eq with hlt | heq
  · -- different binades: the power of two between them separates the roundings
    have he' : ulpExponent q' = Int.log 2 q' - 52 := by
      unfold ulpExponent at hlt ⊢
      rcases max_cases (Int.log 2 q' - 52) (-1074) with ⟨h1, _⟩ | ⟨h1, _⟩
      · exact h1
      · rw [h1] at hlt
        have := le_max_right (Int.log 2 q - 52) (-1074)
        omega
    have hloglt : Int.log 2 q + 1 ≤ Int.log 2 q' := by
      have h1 : Int.log 2 q - 52 ≤ ulpExponent q := le_max_left (Int.log 2 q - 52) (-1074)
      omega
    have hB1 : q ≤ (2 : ℚ) ^ Int.log 2 q' := by
      have h1 : q < ((2 : ℕ) : ℚ) ^ (Int.log 2 q + 1) := Int.lt_zpow_succ_log_self (by norm_num) q
      have h2' : (2 : ℚ) ^ (Int.log 2 q + 1) ≤ 2 ^ Int.log 2 q' :=
        zpow_le_zpow_right₀ (by norm_num) hloglt
      push_cast at h1
      linarith
    have hB2 : (2 : ℚ) ^ Int.log 2 q' ≤ q' := by
      have := Int.zpow_log_le_self (b := 2) (by norm_num) hq'pos
      exact_mod_cast this
    -- the upper value is at least the separating power
    have hup : (2 : ℚ) ^ Int.log 2 q'
        ≤ (roundNearestEven (q' / 2 ^ ulpExponent q') : ℚ) * 2 ^ ulpExponent q' := by
      have hint : (2 : ℚ) ^ Int.log 2 q' / 2 ^ ulpExponent q' = (((2 ^ 52 : ℕ) : ℤ) : ℚ) := by
        rw [div_eq_iff (ne_of_gt (hpow _)), he']
        push_cast
        rw [show (4503599627370496 : ℚ) = 2 ^ (52 : ℤ) by norm_num,
          ← zpow_add₀ (by norm_num : (2 : ℚ) ≠ 0)]
        congr 1
        ring
      have hmono := roundNearestEven_mono
        (div_le_div_of_nonneg_right hB2 (hpow (ulpExponent q')).le)
      rw [hint, roundNearestEven_intCast] at hmono
      have hq : ((((2 ^ 52 : ℕ) : ℤ)) : ℚ) ≤ (roundNearestEven (q' / 2 ^ ulpExponent q') : ℚ) := by
        exact_mod_cast hmono
      calc (2 : ℚ) ^ Int.log 2 q'
          = (((2 ^ 52 : ℕ) : ℤ) : ℚ) * 2 ^ ulpExponent q' := by
            rw [← hint, div_mul_cancel₀ _ (ne_of_gt (hpow _))]
        _ ≤ _ := mul_le_mul_of_nonneg_right hq (hpow _).le
    -- the lower value is at most the separating power
    have hlow : (roundNearestEven (q / 2 ^ ulpExponent q) : ℚ) * 2 ^ ulpExponent q
        ≤ (2 : ℚ) ^ Int.log 2 q' := by
      obtain ⟨n, hn⟩ : ∃ n : ℕ, Int.log 2 q' = ulpExponent q + n :=
        ⟨(Int.log 2 q' - ulpExponent q).toNat, by omega⟩
      have hint : (2 : ℚ) ^ Int.log 2 q' / 2 ^ ulpExponent q = (((2 ^ n : ℕ) : ℤ) : ℚ) := by
        rw [div_eq_iff (ne_of_gt (hpow _)), hn, zpow_add₀ (by norm_num : (2 : ℚ) ≠ 0),
          zpow_natCast]
        push_cast
        ring
      have hmono := roundNearestEven_mono
        (div_le_div_of_nonneg_right hB1 (hpow (ulpExponent q)).le)
      rw [hint, roundNearestEven_intCast] at hmono
      have hq : (roundNearestEven (q / 2 ^ ulpExponent q) : ℚ) ≤ ((((2 ^ n : ℕ) : ℤ)) : ℚ) := by
        exact_mod_cast hmono
      calc (roundNearestEven (q / 2 ^ ulpExponent q) : ℚ) * 2 ^ ulpExponent q
          ≤ (((2 ^ n : ℕ) : ℤ) : ℚ) * 2 ^ ulpExponent q :=
            mul_le_mul_of_nonneg_right hq (hpow _).le
        _ = (2 : ℚ) ^ Int.log 2 q' := by
            rw [← hint, div_mul_cancel₀ _ (ne_of_gt (hpow _))]
    exact le_trans hlow hup
  · rw [← heq]
    have hmono := roundNearestEven_mono
      (div_le_div_of_nonneg_right h (hpow (ulpExponent q)).le)
    exact mul_le_mul_of_nonneg_right (by exact_mod_cast hmono) (hpow _).le

/-- In the normal range the rounding error is at most the fraction `2^-53` of
the rounded value. -/
theorem roundedValue_error {q : ℚ} (hq : (2 : ℚ) ^ (-1022 : ℤ) ≤ q) :
    |roundedValue q - q| ≤ q * 2 ^ (-53 : ℤ) := by
  have h2 : (0 : ℚ) < 2 := by norm_num
  have hpow : ∀ z : ℤ, (0 : ℚ) < 2 ^ z := fun z => zpow_pos h2 z
  have hqpos : 0 < q := lt_of_lt_of_le (hpow _) hq
  have hlog : -1022 ≤ Int.log 2 q := by
    have := (Int.zpow_le_iff_le_log (b := 2) (by norm_num) hqpos (x := -1022)).1
      (by exact_mod_cast hq)
    exact this
  have he : ulpExponent q = Int.log 2 q - 52 := by
    unfold ulpExponent
    exact max_eq_left (by omega)
  have hule : (2 : ℚ) ^ ulpExponent q ≤ q * 2 ^ (-52 : ℤ) := by
    have h1 : (2 : ℚ) ^ Int.log 2 q ≤ q := by
      have := Int.zpow_log_le_self (b := 2) (by norm_num) hqpos
      exact_mod_cast this
    rw [he, sub_eq_add_neg, zpow_add₀ (by norm_num : (2 : ℚ) ≠ 0)]
    exact mul_le_mul_of_nonneg_right h1 (hpow _).le
  unfold roundedValue
  rw [if_neg (ne_of_gt hqpos)]
  have herr := roundNearestEven_sub_le (q / 2 ^ ulpExponent q)
  have hrw : (roundNearestEven (q / 2 ^ ulpExponent q) : ℚ) * 2 ^ ulpExponent q - q
      = ((roundNearestEven (q / 2 ^ ulpExponent q) : ℚ) - q / 2 ^ ulpExponent q)
          * 2 ^ ulpExponent q := by
    rw [sub_mul, div_mul_cancel₀ _ (ne_of_gt (hpow _))]
  rw [hrw, abs_mul, abs_of_pos (hpow (ulpExponent q))]
  have h53 : q * (2 : ℚ) ^ (-53 : ℤ) = 1 / 2 * (q * 2 ^ (-52 : ℤ)) := by
    rw [show (-53 : ℤ) = -52 + -1 by norm_num, zpow_add₀ (by norm_num : (2 : ℚ) ≠ 0)]
    rw [zpow_neg_one]
    ring
  rw [h53]
  exact mul_le_mul herr hule (hpow _).le (by norm_num)

theorem roundedValue_quarters (n : ℕ) (hn : n < 2 ^ 53) :
    roundedValue ((n : ℚ) / 4) = (n : ℚ) / 4 := by
  have heq : (n : ℚ) * 2 ^ (-2 : ℤ) = (n : ℚ) / 4 := by
    rw [show (2 : ℚ) ^ (-2 : ℤ) = 1 / 4 by norm_num]
    ring
  have h := roundedValue_exact n (-2) hn (by norm_num) (by
    rw [heq]
    have h1 : (n : ℚ) < ((2 ^ 53 : ℕ) : ℚ) := by exact_mod_cast hn
    have h2 : (((2 ^ 53 : ℕ) : ℚ)) ≤ 2 ^ (1024 : ℕ) := by norm_num
    have h3 : (n : ℚ) / 4 ≤ n := by
      have : (0 : ℚ) ≤ n := Nat.cast_nonneg n
      linarith
    linarith)
  rw [heq] at h
  exact h

/-- Without overflow the rescaling is the truncation of `rescaledValue`. -/
theorem rescale_eq_floor (env : FloatEnv) (k : ℚ) (t : ℕ) (hk : 0 ≤ k)
    (hlt : rescaledValue env.fused k t < 4294967296) :
    rescale env (.fin k) t = ⌊rescaledValue env.fused k t⌋.toNat := by
  have hbig : (4294967296 : ℚ) < 2 ^ (1024 : ℕ) := by norm_num
  have h32 : roundedValue (4294967296 : ℚ) = 4294967296 := by
    have := roundedValue_quarters 17179869184 (by norm_num)
    norm_num at this
    exact this
  have htk : (0 : ℚ) ≤ (t : ℚ) * k := mul_nonneg (Nat.cast_nonneg t) hk
  unfold rescale
  unfold rescaledValue at hlt ⊢
  cases hf : env.fused with
  | true =>
    rw [hf] at hlt
    simp only [if_true] at hlt ⊢
    simp only [F64.fma, F64.ofUint32]
    rw [round_of_roundedValue_lt (lt_trans hlt hbig)]
    simp only [F64.toUint32, if_pos hlt]
  | false =>
    rw [hf] at hlt
    simp only [Bool.false_eq_true, if_false] at hlt ⊢
    have hinner : roundedValue ((t : ℚ) * k) < 4294967296 := by
      by_contra hcon
      have hge : (4294967296 : ℚ) ≤ 1 / 2 + roundedValue ((t : ℚ) * k) := by
        have := not_lt.1 hcon
        linarith
      have := roundedValue_mono (by norm_num) hge
      rw [h32] at this
      linarith
    simp only [F64.mul, F64.ofUint32]
    rw [round_of_roundedValue_lt (lt_trans hinner hbig)]
    simp only [F64.add]
    rw [round_of_roundedValue_lt (lt_trans hlt hbig)]
    simp only [F64.toUint32, if_pos hlt]

theorem rescaledValue_mono (fused : Bool) (k : ℚ) (hk : 0 ≤ k) {t t' : ℕ} (h : t ≤ t') :
    rescaledValue fused k t ≤ rescaledValue fused k t' := by
  have hc : (t : ℚ) ≤ t' := by exact_mod_cast h
  have htk : (0 : ℚ) ≤ (t : ℚ) * k := mul_nonneg (Nat.cast_nonneg t) hk
  have hle : (t : ℚ) * k ≤ (t' : ℚ) * k := mul_le_mul_of_nonneg_right hc hk
  unfold rescaledValue
  cases fused with
  | true =>
    simp only [if_true]
    exact roundedValue_mono (by linarith) (by linarith)
  | false =>
    simp only [Bool.false_eq_true, if_false]
    have h1 := roundedValue_mono htk hle
    have h0 := roundedValue_nonneg htk
    exact roundedValue_mono (by linarith) (by linarith)

/-- The scale factor `S/T` of two totals below `2^32`, rounded to binary64. -/
theorem scale_factor (S T : ℕ) (hS0 : 0 < S) (hS : S < u32) (hT0 : 0 < T) (hT : T < u32) :
    F64.div (F64.ofUint32 S) (F64.ofUint32 T) = .fin (roundedValue ((S : ℚ) / T)) ∧
    0 ≤ roundedValue ((S : ℚ) / T) ∧
    |(T : ℚ) * roundedValue ((S : ℚ) / T) - S| ≤ 1 / 4 := by
  have hSq : (0 : ℚ) < S := by exact_mod_cast hS0
  have hTq : (0 : ℚ) < T := by exact_mod_cast hT0
  have hSlt : (S : ℚ) < 4294967296 := by
    have : (S : ℚ) < ((4294967296 : ℕ) : ℚ) := by exact_mod_cast hS
    simpa using this
  have hTlt : (T : ℚ) < 4294967296 := by
    have : (T : ℚ) < ((4294967296 : ℕ) : ℚ) := by exact_mod_cast hT
    simpa using this
  have hS1 : (1 : ℚ) ≤ S := by exact_mod_cast hS0
  have hT1 : (1 : ℚ) ≤ T := by exact_mod_cast hT0
  have hq0 : (0 : ℚ) < (S : ℚ) / T := div_pos hSq hTq
  have hqle : (S : ℚ) / T ≤ 4294967296 := by
    rw [div_le_iff₀ hTq]
    nlinarith
  have hqge : (2 : ℚ) ^ (-1022 : ℤ) ≤ (S : ℚ) / T := by
    have h1 : (2 : ℚ) ^ (-1022 : ℤ) ≤ 1 / 4294967296 := by
      rw [show (1 : ℚ) / 4294967296 = 2 ^ (-32 : ℤ) by norm_num]
      exact zpow_le_zpow_right₀ (by norm_num) (by norm_num)
    have h2 : (1 : ℚ) / 4294967296 ≤ (S : ℚ) / T := by
      rw [le_div_iff₀ hTq]
      linarith
    exact le_trans h1 h2
  have h32 : roundedValue (4294967296 : ℚ) = 4294967296 := by
    have := roundedValue_quarters 17179869184 (by norm_num)
    norm_num at this
    exact this
  have hk0 := roundedValue_nonneg hq0.le
  have hklt : roundedValue ((S : ℚ) / T) < 2 ^ (1024 : ℕ) := by
    have := roundedValue_mono hq0.le hqle
    rw [h32] at this
    have hbig : (4294967296 : ℚ) < 2 ^ (1024 : ℕ) := by norm_num
    linarith
  refine ⟨?_, hk0, ?_⟩
  · simp only [F64.div, F64.ofUint32, if_neg (ne_of_gt hTq)]
    exact round_of_roundedValue_lt hklt
  · have herr := roundedValue_error hqge
    have h53 : (2 : ℚ) ^ (-53 : ℤ) = 1 / 9007199254740992 := by norm_num
    rw [h53] at herr
    have hrw : (T : ℚ) * roundedValue ((S : ℚ) / T) - S
        = T * (roundedValue ((S : ℚ) / T) - (S : ℚ) / T) := by
      rw [mul_sub, mul_div_cancel₀ _ (ne_of_gt hTq)]
    rw [hrw, abs_mul, abs_of_pos hTq]
    have h1 : (T : ℚ) * |roundedValue ((S : ℚ) / T) - (S : ℚ) / T|
        ≤ T * ((S : ℚ) / T * (1 / 9007199254740992)) :=
      mul_le_mul_of_nonneg_left herr hTq.le
    have h2 : (T : ℚ) * ((S : ℚ) / T * (1 / 9007199254740992)) = S / 9007199254740992 := by
      field_simp
      ring
    rw [h2] at h1
    linarith

/-- With the scale factor `S/T` the total `T` is rescaled to a value that
truncates to `S`. -/
theorem rescaledValue_total (fused : Bool) (S T : ℕ) (hS0 : 0 < S) (hS : S < u32)
    (hT0 : 0 < T) (hT : T < u32) :
    (S : ℚ) + 1 / 4 ≤ rescaledValue fused (roundedValue ((S : ℚ) / T)) T ∧
    rescaledValue fused (roundedValue ((S : ℚ) / T)) T ≤ (S : ℚ) + 3 / 4 := by
  obtain ⟨_, hk0, herr⟩ := scale_factor S T hS0 hS hT0 hT
  rw [abs_le] at herr
  obtain ⟨hlo, hhi⟩ := herr
  have hS1 : (1 : ℚ) ≤ S := by exact_mod_cast hS0
  have hS' : S < 4294967296 := hS
  have e1 : roundedValue ((S : ℚ) + 1 / 4) = (S : ℚ) + 1 / 4 := by
    have := roundedValue_quarters (4 * S + 1) (by omega)
    rw [show (((4 * S + 1 : ℕ) : ℚ)) / 4 = (S : ℚ) + 1 / 4 by push_cast; ring] at this
    exact this
  have e3 : roundedValue ((S : ℚ) + 3 / 4) = (S : ℚ) + 3 / 4 := by
    have := roundedValue_quarters (4 * S + 3) (by omega)
    rw [show (((4 * S + 3 : ℕ) : ℚ)) / 4 = (S : ℚ) + 3 / 4 by push_cast; ring] at this
    exact this
  have em : roundedValue ((S : ℚ) - 1 / 4) = (S : ℚ) - 1 / 4 := by
    have := roundedValue_quarters (4 * S - 1) (by omega)
    rw [show (((4 * S - 1 : ℕ) : ℚ)) / 4 = (S : ℚ) - 1 / 4 by
      rw [Nat.cast_sub (by omega)]; push_cast; ring] at this
    exact this
  unfold rescaledValue
  cases fused with
  | true =>
    simp only [if_true]
    constructor
    · rw [← e1]
      exact roundedValue_mono (by linarith) (by linarith)
    · rw [← e3]
      exact roundedValue_mono (by linarith) (by linarith)
  | false =>
    simp only [Bool.false_eq_true, if_false]
    have h1 : (S : ℚ) - 1 / 4 ≤ roundedValue ((T : ℚ) * roundedValue ((S : ℚ) / T)) := by
      rw [← em]
      exact roundedValue_mono (by linarith) (by linarith)
    have h2 : roundedValue ((T : ℚ) * roundedValue ((S : ℚ) / T)) ≤ (S : ℚ) + 1 / 4 := by
      rw [← e1]
      exact roundedValue_mono (by linarith) (by linarith)
    constructor
    · rw [← e1]
      exact roundedValue_mono (by linarith) (by linarith)
    · rw [← e3]
      exact roundedValue_mono (by linarith) (by linarith)

/-- The rescaling of the target cumulative histogram, when the target is not
empty and neither total wraps: the curve stays non-decreasing in the cumulative
count and the total is sent to the source total. -/
theorem rescale_spec (env : FloatEnv) (S T : ℕ) (hS : S < u32) (hT0 : 0 < T) (hT : T < u32) :
    rescale env (F64.div (F64.ofUint32 S) (F64.ofUint32 T)) T = S ∧
    ∀ t t', t ≤ t' → t' ≤ T →
      rescale env (F64.div (F64.ofUint32 S) (F64.ofUint32 T)) t
        ≤ rescale env (F64.div (F64.ofUint32 S) (F64.ofUint32 T)) t' := by
  rcases Nat.eq_zero_or_pos S with h0 | hS0
  · subst h0
    rw [F64.zero_div_ofUint32 T hT0]
    refine ⟨rescale_zero env T, fun t t' _ _ => ?_⟩
    rw [rescale_zero, rescale_zero]
  obtain ⟨hdiv, hk0, _⟩ := scale_factor S T hS0 hS hT0 hT
  obtain ⟨hlo, hhi⟩ := rescaledValue_total env.fused S T hS0 hS hT0 hT
  have hSlt : (S : ℚ) + 1 ≤ 4294967296 := by
    have : ((S + 1 : ℕ) : ℚ) ≤ ((4294967296 : ℕ) : ℚ) := by exact_mod_cast hS
    push_cast at this
    exact this
  have hbound : ∀ t, t ≤ T →
      rescaledValue env.fused (roundedValue ((S : ℚ) / T)) t < 4294967296 := by
    intro t ht
    have := rescaledValue_mono env.fused _ hk0 ht
    linarith
  rw [hdiv]
  constructor
  · rw [rescale_eq_floor env _ T hk0 (hbound T (le_refl T))]
    have hfloor : ⌊rescaledValue env.fused (roundedValue ((S : ℚ) / T)) T⌋ = (S : ℤ) := by
      rw [Int.floor_eq_iff]
      constructor
      · push_cast; linarith
      · push_cast; linarith
    rw [hfloor, Int.toNat_ofNat]
  · intro t t' htt ht'
    rw [rescale_eq_floor env _ t hk0 (hbound t (le_trans htt ht')),
      rescale_eq_floor env _ t' hk0 (hbound t' ht')]
    exact Int.toNat_le_toNat (Int.floor_mono (rescaledValue_mono env.fused _ hk0 htt))

theorem rescaledTarget_last (env : FloatEnv) (current target : histogram)
    (hc : current.total < u32) (ht : target.total < u32) (h0 : target.total ≠ 0) :
    rescaledTarget env current target (histSize - 1) = current.total := by
  unfold rescaledTarget
  simp only [cumulative_last current hc, cumulative_last target ht]
  exact (rescale_spec env current.total target.total hc (Nat.pos_of_ne_zero h0) ht).1

theorem rescaledTarget_mono (env : FloatEnv) (current target : histogram)
    (hc : current.total < u32) (ht : target.total < u32) (h0 : target.total ≠ 0)
    {i j : ℕ} (hij : i ≤ j) (hj : j < histSize) :
    rescaledTarget env current target i ≤ rescaledTarget env current target j := by
  unfold rescaledTarget
  simp only [cumulative_last current hc, cumulative_last target ht]
  refine (rescale_spec env current.total target.total hc (Nat.pos_of_ne_zero h0) ht).2 _ _
    (cumulative_mono target ht hij hj) ?_
  rw [← cumulative_last target ht]
  exact cumulative_mono target ht (by omega) (by norm_num)

theorem rescaledTarget_congr (env : FloatEnv) (current target : histogram) {a b : ℕ}
    (h : convertToCumulativeHistogram target a = convertToCumulativeHistogram target b) :
    rescaledTarget env current target a = rescaledTarget env current target b := by
  unfold rescaledTarget
  simp only [h]

/-- Every entry of the table of one channel is 0 or an intensity with a non-empty
target bucket, and none lies above the last non-empty target bucket. -/
theorem generateLut_target_tone (env : FloatEnv) (current target : histogram)
    (hc : current.total < u32) (ht : target.total < u32) (h0 : target.total ≠ 0)
    {i : ℕ} (hi : i < histSize) :
    (0 < generateLutFromHistograms env current target i →
      0 < target (generateLutFromHistograms env current target i)) ∧
    (∀ m, (∀ j, m < j → j < histSize → target j = 0) →
      generateLutFromHistograms env current target i ≤ m) := by
  have hex : ∃ p, p < histSize ∧
      convertToCumulativeHistogram current i ≤ rescaledTarget env current target p := by
    refine ⟨histSize - 1, by norm_num, ?_⟩
    rw [rescaledTarget_last env current target hc ht h0, ← cumulative_last current hc]
    exact cumulative_mono current hc (by omega) (by norm_num)
  have hlut : generateLutFromHistograms env current target i = Nat.find hex := by
    rw [generateLut_eq_ceilingMatch env current target hc hi]
    unfold ceilingMatch
    rw [dif_pos hex]
  have hspec := Nat.find_spec hex
  have hfirst : 0 < Nat.find hex → 0 < target (Nat.find hex) := by
    intro hpos
    by_contra hzero
    have hz : target (Nat.find hex) = 0 := by omega
    obtain ⟨k, hk⟩ : ∃ k, Nat.find hex = k + 1 := ⟨Nat.find hex - 1, by omega⟩
    rw [hk] at hspec hz
    have hcum : convertToCumulativeHistogram target (k + 1)
        = convertToCumulativeHistogram target k := by
      rw [cumulative_succ target ht hspec.1, hz, Nat.add_zero]
    have hmin := Nat.find_min hex (m := k) (by omega)
    apply hmin
    refine ⟨by omega, ?_⟩
    rw [← rescaledTarget_congr env current target hcum]
    exact hspec.2
  rw [hlut]
  refine ⟨hfirst, fun m hm => ?_⟩
  by_contra hgt
  have hpos : 0 < Nat.find hex := by omega
  have := hfirst hpos
  rw [hm (Nat.find hex) (by omega) hspec.1] at this
  exact absurd this (lt_irrefl 0)

/-! ## The claims on the rescaling -/

/-- Claim C18 (rescaling equalizes total mass): for every pair of histograms
whose target channel totals are nonzero and whose channel totals are below
`2^32`, in every channel and every float environment the rescaled target
cumulative histogram is non-decreasing and its last bucket equals the last
bucket of the source cumulative histogram, the source total. -/
theorem C18_rescale_equalizes (env : FloatEnv) (current target : rgbHistogram)
    (hcr : current.r.total < u32) (hcg : current.g.total < u32) (hcb : current.b.total < u32)
    (htr : target.r.total < u32) (htg : target.g.total < u32) (htb : target.b.total < u32)
    (h0r : target.r.total ≠ 0) (h0g : target.g.total ≠ 0) (h0b : target.b.total ≠ 0) :
    ((∀ i j, i ≤ j → j ≤ 65535 →
        rescaledTarget env current.r target.r i ≤ rescaledTarget env current.r target.r j) ∧
      rescaledTarget env current.r target.r 65535
        = (convertToCumulativeRgbHistogram current).r 65535 ∧
      rescaledTarget env current.r target.r 65535 = current.r.total) ∧
    ((∀ i j, i ≤ j → j ≤ 65535 →
        rescaledTarget env current.g target.g i ≤ rescaledTarget env current.g target.g j) ∧
      rescaledTarget env current.g target.g 65535
        = (convertToCumulativeRgbHistogram current).g 65535 ∧
      rescaledTarget env current.g target.g 65535 = current.g.total) ∧
    ((∀ i j, i ≤ j → j ≤ 65535 →
        rescaledTarget env current.b target.b i ≤ rescaledTarget env current.b target.b j) ∧
      rescaledTarget env current.b target.b 65535
        = (convertToCumulativeRgbHistogram current).b 65535 ∧
      rescaledTarget env current.b target.b 65535 = current.b.total) := by
  have key : ∀ cur tgt : histogram, cur.total < u32 → tgt.total < u32 → tgt.total ≠ 0 →
      (∀ i j, i ≤ j → j ≤ 65535 →
        rescaledTarget env cur tgt i ≤ rescaledTarget env cur tgt j) ∧
      rescaledTarget env cur tgt 65535 = convertToCumulativeHistogram cur 65535 ∧
      rescaledTarget env cur tgt 65535 = cur.total := by
    intro cur tgt hc ht h0
    refine ⟨fun i j hij hj => rescaledTarget_mono env cur tgt hc ht h0 hij
      (by show j < 65536; omega), ?_, rescaledTarget_last env cur tgt hc ht h0⟩
    exact (rescaledTarget_last env cur tgt hc ht h0).trans (cumulative_last cur hc).symm
  exact ⟨key _ _ hcr htr h0r, key _ _ hcg htg h0g, key _ _ hcb htb h0b⟩

/-- Claim C18, witness: 100 pixels at 30000 against 200 pixels at 50000 (scale
factor one half): the last rescaled bucket is 100. -/
theorem C18_rescale_equalizes_witness :
    ((spike 100 30000).total < u32 ∧ (spike 200 50000).total < u32 ∧
      (spike 200 50000).total ≠ 0) ∧
    rescaledTarget amd64 (rgbSpike 100 30000).r (rgbSpike 200 50000).r 65535 = 100 :=
  have hs : (spike 100 30000).total = 100 := total_spike 100 30000 (by norm_num)
  have ht : (spike 200 50000).total = 200 := total_spike 200 50000 (by norm_num)
  have h1 : (spike 100 30000).total < u32 := by rw [hs]; norm_num
  have h2 : (spike 200 50000).total < u32 := by rw [ht]; norm_num
  have h3 : (spike 200 50000).total ≠ 0 := by rw [ht]; norm_num
  ⟨⟨h1, h2, h3⟩,
   ((C18_rescale_equalizes amd64 (rgbSpike 100 30000) (rgbSpike 200 50000) h1 h1 h1 h2 h2 h2
      h3 h3 h3).1.2.2).trans hs⟩

/-- Claim C19 (LUT outputs are tones present in the target): for every pair of
histograms whose target channel totals are nonzero and whose channel totals are
below `2^32`, every channel and every source intensity `i`: if `lut[i] > 0` the
target histogram has a nonzero count at intensity `lut[i]`, and `lut[i]` does not
exceed any intensity above which all target buckets are empty, in particular
the largest intensity with a nonzero target count. -/
theorem C19_lut_tones_in_target (env : FloatEnv) (current target : rgbHistogram) (i : ℕ)
    (hcr : current.r.total < u32) (hcg : current.g.total < u32) (hcb : current.b.total < u32)
    (htr : target.r.total < u32) (htg : target.g.total < u32) (htb : target.b.total < u32)
    (h0r : target.r.total ≠ 0) (h0g : target.g.total ≠ 0) (h0b : target.b.total ≠ 0)
    (hi : i ≤ 65535) :
    ((0 < (generateRgbLutFromRgbHistograms env current target).r i →
        0 < target.r ((generateRgbLutFromRgbHistograms env current target).r i)) ∧
      (∀ m, (∀ j, m < j → j ≤ 65535 → target.r j = 0) →
        (generateRgbLutFromRgbHistograms env current target).r i ≤ m)) ∧
    ((0 < (generateRgbLutFromRgbHistograms env current target).g i →
        0 < target.g ((generateRgbLutFromRgbHistograms env current target).g i)) ∧
      (∀ m, (∀ j, m < j → j ≤ 65535 → target.g j = 0) →
        (generateRgbLutFromRgbHistograms env current target).g i ≤ m)) ∧
    ((0 < (generateRgbLutFromRgbHistograms env current target).b i →
        0 < target.b ((generateRgbLutFromRgbHistograms env current target).b i)) ∧
      (∀ m, (∀ j, m < j → j ≤ 65535 → target.b j = 0) →
        (generateRgbLutFromRgbHistograms env current target).b i ≤ m)) := by
  have hi' : i < histSize := by show i < 65536; omega
  have key : ∀ cur tgt : histogram, cur.total < u32 → tgt.total < u32 → tgt.total ≠ 0 →
      (0 < generateLutFromHistograms env cur tgt i →
        0 < tgt (generateLutFromHistograms env cur tgt i)) ∧
      (∀ m, (∀ j, m < j → j ≤ 65535 → tgt j = 0) →
        generateLutFromHistograms env cur tgt i ≤ m) := by
    intro cur tgt hc ht h0
    obtain ⟨h1, h2⟩ := generateLut_target_tone env cur tgt hc ht h0 hi'
    exact ⟨h1, fun m hm => h2 m (fun j hmj hj => hm j hmj (by
      have : j < 65536 := hj
      omega))⟩
  exact ⟨key _ _ hcr htr h0r, key _ _ hcg htg h0g, key _ _ hcb htb h0b⟩

/-- Claim C19, witness: 100 pixels at 30000 against 200 pixels at 50000, read at
source intensity 40000: the entry does not exceed 50000, the only target tone. -/
theorem C19_lut_tones_in_target_witness :
    ((spike 100 30000).total < u32 ∧ (spike 200 50000).total < u32 ∧
      (spike 200 50000).total ≠ 0 ∧ 40000 ≤ 65535) ∧
    (generateRgbLutFromRgbHistograms amd64 (rgbSpike 100 30000) (rgbSpike 200 50000)).r 40000
      ≤ 50000 :=
  have hs : (spike 100 30000).total = 100 := total_spike 100 30000 (by norm_num)
  have ht : (spike 200 50000).total = 200 := total_spike 200 50000 (by norm_num)
  have h1 : (spike 100 30000).total < u32 := by rw [hs]; norm_num
  have h2 : (spike 200 50000).total < u32 := by rw [ht]; norm_num
  have h3 : (spike 200 50000).total ≠ 0 := by rw [ht]; norm_num
  ⟨⟨h1, h2, h3, by norm_num⟩,
   (C19_lut_tones_in_target amd64 (rgbSpike 100 30000) (rgbSpike 200 50000) 40000 h1 h1 h1
      h2 h2 h2 h3 h3 h3 (by norm_num)).1.2 50000 (fun j hj _ => by
        show spike 200 50000 j = 0
        unfold spike
        rw [if_neg (by omega)])⟩

/-! ## Wide rolling windows -/

theorem map_currentAt_range (pictures : List picture) :
    (List.range pictures.length).map (fun k => currentAt pictures k)
      = pictures.map (fun pic => pic.currentRgbHistogram) := by
  apply List.ext_getElem
  · rw [List.length_map, List.length_map, List.length_range]
  · intro n h1 h2
    have hn : n < pictures.length := by
      rw [List.length_map, List.length_range] at h1
      exact h1
    rw [List.getElem_map, List.getElem_map, List.getElem_range]
    exact (currentAt_of_lt pictures n hn).2

/-- The window loop over all indices `0, ..., len - 1` accumulates what the loop
of global mode over the slice accumulates. -/
theorem foldl_whole_window (pictures : List picture) (acc : rgbHistogram) :
    (loopRange 0 (pictures.length : ℤ)).foldl
        (fun acc idx => addRgbHistogram acc (currentAt pictures idx.toNat)) acc
      = pictures.foldl (fun acc pic => addRgbHistogram acc pic.currentRgbHistogram) acc := by
  have hn : ((pictures.length : ℤ) - 0).toNat = pictures.length := by omega
  have h1 : (loopRange 0 (pictures.length : ℤ)).foldl
        (fun acc idx => addRgbHistogram acc (currentAt pictures idx.toNat)) acc
      = ((List.range pictures.length).map (fun k => currentAt pictures k)).foldl
          addRgbHistogram acc := by
    unfold loopRange
    rw [hn, List.foldl_map, List.foldl_map]
    congr 1
    funext a k
    have hk : ((0 : ℤ) + (k : ℤ)).toNat = k := by omega
    rw [hk]
  rw [h1, map_currentAt_range, List.foldl_map]

/-- A window that reaches both ends of the sequence from every position, without
`int` overflow: the rolling average at every position is the global average. -/
theorem rollingAverageAt_wide (W i : ℕ) (pictures : List picture) (hW : 0 < W)
    (hWL : pictures.length - 1 ≤ W) (hi : i < pictures.length)
    (hov : pictures.length - 1 + W < 9223372036854775808) (hL : pictures.length < u32) :
    rollingAverageAt (W : ℤ) pictures i = globalAverage pictures := by
  have hmin : min (pictures.length - 1) (i + W) = pictures.length - 1 :=
    Nat.min_eq_left (by omega)
  have hsub : i - W = 0 := by omega
  have hcnt : pictures.length - 1 - 0 + 1 = pictures.length := by omega
  have hend : (((pictures.length - 1 : ℕ) : ℤ) + 1) = (pictures.length : ℤ) := by omega
  rw [rollingAverageAt_window W i pictures hW (by omega) hi hL,
    globalAverage_eq pictures (by omega) hL, hmin, hsub, hcnt, hend]
  show some (divRgbHistogram
    ((loopRange 0 (pictures.length : ℤ)).foldl
      (fun acc idx => addRgbHistogram acc (currentAt pictures idx.toNat)) zeroRgbHistogram)
    pictures.length) = _
  rw [foldl_whole_window]

theorem enum_map_snd_comp (pictures : List picture) (g : picture → picture) :
    pictures.enum.map (fun ip => g ip.2) = pictures.map g := by
  have h : pictures.enum.map (fun ip => g ip.2) = (pictures.enum.map Prod.snd).map g := by
    rw [List.map_map]
    rfl
  rw [h, List.enum_map_snd]

/-! ## The claim on wide rolling windows -/

/-- Claim C21, counterexample: two pictures of 100 black pixels and the window
`2^63 - 1`, which is at least `L - 1 = 1`: `i + window` overflows at position 1,
so rolling mode leaves the target of picture 1 at zero while global mode assigns
the average, 100 counts in bucket 0, to both pictures. -/
theorem C21_wide_window_is_global_counterexample :
    (1 ≤ [blackPicture 100, blackPicture 100].length ∧
      1 ≤ hugeWindowConfig.rollingAverage ∧
      ([blackPicture 100, blackPicture 100].length : ℤ) - 1 ≤ hugeWindowConfig.rollingAverage ∧
      globalConfig.rollingAverage < 1) ∧
    (averageTargets hugeWindowConfig [blackPicture 100, blackPicture 100]).map
        (fun out => out.map fun pic => pic.targetRgbHistogram.r 0) = some [100, 0] ∧
    (averageTargets globalConfig [blackPicture 100, blackPicture 100]).map
        (fun out => out.map fun pic => pic.targetRgbHistogram.r 0) = some [100, 100] := by
  decide

/-- Claim C21 (wide rolling window equals global mode), amended: for every
sequence of `L` pictures with `1 ≤ L < 2^32` and every window `W ≥ 1` with
`W ≥ L - 1` and `L - 1 + W ≤ 2^63 - 1` (no `int` overflow), the rolling-mode
branch computes at every position the average that the global-mode branch
computes, neither branch panics, and both assign the same target histogram to
every picture. -/
theorem C21_wide_window_is_global (rolling global : configuration) (pictures : List picture)
    (hL0 : 1 ≤ pictures.length) (hL : pictures.length < u32)
    (hW1 : 1 ≤ rolling.rollingAverage)
    (hWL : (pictures.length : ℤ) - 1 ≤ rolling.rollingAverage)
    (hov : (pictures.length : ℤ) - 1 + rolling.rollingAverage < 9223372036854775808)
    (hG : global.rollingAverage < 1) :
    (∀ i, i < pictures.length →
      rollingAverageAt rolling.rollingAverage pictures i = globalAverage pictures) ∧
    (∃ avg, globalAverage pictures = some avg) ∧
    averageTargets rolling pictures = averageTargets global pictures := by
  obtain ⟨W, hW⟩ := Int.eq_ofNat_of_zero_le (by omega : 0 ≤ rolling.rollingAverage)
  have hwide : ∀ i, i < pictures.length →
      rollingAverageAt rolling.rollingAverage pictures i = globalAverage pictures := by
    intro i hi
    rw [hW]
    exact rollingAverageAt_wide W i pictures (by omega) (by omega) hi (by omega) hL
  obtain ⟨G, hglob⟩ : ∃ G, globalAverage pictures = some G :=
    ⟨_, globalAverage_eq pictures (by omega) hL⟩
  refine ⟨hwide, ⟨G, hglob⟩, ?_⟩
  unfold averageTargets
  rw [if_neg (by omega), if_pos hG, hglob]
  rw [mapM_eq_some_map _
    (fun ip : ℕ × picture => ({ ip.2 with targetRgbHistogram := G } : picture))
    pictures.enum ?_]
  · rw [enum_map_snd_comp pictures
      (fun pic => ({ pic with targetRgbHistogram := G } : picture))]
    rfl
  · intro ip hip
    have hlt : ip.1 < pictures.length := by
      rw [List.mem_enum_iff_getElem?] at hip
      exact (List.getElem?_eq_some.1 hip).1
    simp only [hwide ip.1 hlt, hglob]
    rfl

/-- Claim C21, witness: three pictures of 100 black pixels, rolling window 2
against global mode. -/
theorem C21_wide_window_is_global_witness :
    (1 ≤ [blackPicture 100, blackPicture 100, blackPicture 100].length ∧
      [blackPicture 100, blackPicture 100, blackPicture 100].length < u32 ∧
      1 ≤ ({ rollingConfig with rollingAverage := 2 } : configuration).rollingAverage ∧
      ([blackPicture 100, blackPicture 100, blackPicture 100].length : ℤ) - 1
        ≤ ({ rollingConfig with rollingAverage := 2 } : configuration).rollingAverage ∧
      ([blackPicture 100, blackPicture 100, blackPicture 100].length : ℤ) - 1
        + ({ rollingConfig with rollingAverage := 2 } : configuration).rollingAverage
          < 9223372036854775808 ∧
      globalConfig.rollingAverage < 1) ∧
    averageTargets { rollingConfig with rollingAverage := 2 }
        [blackPicture 100, blackPicture 100, blackPicture 100]
      = averageTargets globalConfig [blackPicture 100, blackPicture 100, blackPicture 100] :=
  ⟨by decide,
   (C21_wide_window_is_global { rollingConfig with rollingAverage := 2 } globalConfig
      [blackPicture 100, blackPicture 100, blackPicture 100]
      (by decide) (by decide) (by decide) (by decide) (by decide) (by decide)).2.2⟩

end Deflicker
